import Mathlib

/-!
Verification of the spline module (`src/lib/spline.py`): monotone rational
interpolants (`Pade22Spline`, `Pade11Spline`), generalized sorted search,
derivative smoothing, and knot augmentation (`AugmentKnots`).

Tensors are modelled along the knot axis as `List K` over a linear ordered
field; a batched tensor is a `List` of such rows (the knot axis is the
innermost one, and every torch operation used by the module acts rowwise
except the boundary-derivative check, which aggregates over the batch).
-/

namespace Spline

variable {K : Type} [LinearOrderedField K]

/-- Elementwise access to a knot array along the knot axis (`z[..., i]`). -/
def getk (l : List K) (i : ℕ) : K := l.getD i 0

/-- The knot arrays are strictly increasing along the knot axis. -/
def sortedLT (l : List K) : Prop :=
  ∀ i j : ℕ, i < j → j < l.length → getk l i < getk l j

/-- All entries of a knot array are positive. -/
def allPos (l : List K) : Prop := ∀ i : ℕ, i < l.length → 0 < getk l i

/-- `torch.searchsorted` (with `right=False`) on a sorted 1-D tensor: the
first index whose entry is `≥` the query value. -/
def searchsorted (xs : List K) (v : K) : ℕ :=
  match xs with
  | [] => 0
  | a :: t => if a < v then searchsorted t v + 1 else 0

/-- `torch.clamp(segm_ind, min=1, max=segm_len) - 1`, the segment index used
by `_calc_segment_func` and `_calc_segment_inv_func`. -/
def segmentIndex (xs : List K) (segmLen : ℕ) (v : K) : ℕ :=
  min (max (searchsorted xs v) 1) segmLen - 1

/-- One knot set: `knots_x`, `knots_y`, `knots_d` along the knot axis. -/
structure Knots (K : Type) where
  xs : List K
  ys : List K
  ds : List K

/-- `Pade22Spline._calc_segment_func`: value of the rational-quadratic
interpolant on one segment. -/
def pade22_g0 (x0 x1 y0 y1 d0 d1 x : K) : K :=
  let m := (y1 - y0) / (x1 - x0)
  let theta := (x - x0) / (x1 - x0)
  y0 + (y1 - y0) * theta * (m * theta + d0 * (1 - theta))
    / (m + (d1 + d0 - 2 * m) * theta * (1 - theta))

/-- `Pade11Spline._calc_segment_func`: value of the rational-linear
interpolant on one segment. -/
def pade11_g0 (x0 x1 y0 y1 d0 x : K) : K :=
  let m := (y1 - y0) / (x1 - x0)
  let theta := (x - x0) / (x1 - x0)
  y0 + (y1 - y0) * d0 * theta / (m + (d0 - m) * theta)

/-- `Pade11Spline._calc_segment_inv_func`: closed-form inverse of the
rational-linear interpolant on one segment. -/
def pade11_inv (x0 x1 y0 y1 d0 y : K) : K :=
  let m := (y1 - y0) / (x1 - x0)
  let eta := (y - y0) / (y1 - y0)
  let theta := -eta * m / (eta * (d0 - m) - d0)
  x0 + (x1 - x0) * theta

/-- `SplineTemplate.forward` for `Pade22Spline` (value output). -/
def forward22 (k : Knots K) (x : K) : K :=
  let i := segmentIndex k.xs (k.xs.length - 1) x
  pade22_g0 (getk k.xs i) (getk k.xs (i + 1)) (getk k.ys i) (getk k.ys (i + 1))
    (getk k.ds i) (getk k.ds (i + 1)) x

/-- `SplineTemplate.forward` for `Pade11Spline` (value output). -/
def forward11 (k : Knots K) (x : K) : K :=
  let i := segmentIndex k.xs (k.xs.length - 1) x
  pade11_g0 (getk k.xs i) (getk k.xs (i + 1)) (getk k.ys i) (getk k.ys (i + 1))
    (getk k.ds i) x

/-- `SplineTemplate.backward` for `Pade11Spline` (value output). -/
def backward11 (k : Knots K) (y : K) : K :=
  let i := segmentIndex k.ys (k.xs.length - 1) y
  pade11_inv (getk k.xs i) (getk k.xs (i + 1)) (getk k.ys i) (getk k.ys (i + 1))
    (getk k.ds i) y

/-- `calc_theta` of `Pade22Spline._calc_segment_inv_func`: root selection for
the quadratic `a2 theta^2 + a1 theta + a0 = 0`. -/
noncomputable def calcTheta22 (m d0 d1 eta : ℝ) : ℝ :=
  let a2 := (2 * m - d1 - d0) * eta + d0 - m
  let a1 := -a2 - m
  let a0 := m * eta
  let delta := Real.sqrt (a1 ^ 2 - 4 * a0 * a2)
  if a2 = 0 then -a0 / a1 else (-a1 - delta) / (2 * a2)

/-- `Pade22Spline._calc_segment_inv_func`: inverse of the rational-quadratic
interpolant on one segment, via `calc_theta`. -/
noncomputable def pade22_inv (x0 x1 y0 y1 d0 d1 y : ℝ) : ℝ :=
  let m := (y1 - y0) / (x1 - x0)
  let eta := (y - y0) / (y1 - y0)
  x0 + (x1 - x0) * calcTheta22 m d0 d1 eta

/-- `SplineTemplate.backward` for `Pade22Spline` (value output). -/
noncomputable def backward22 (k : Knots ℝ) (y : ℝ) : ℝ :=
  let i := segmentIndex k.ys (k.xs.length - 1) y
  pade22_inv (getk k.xs i) (getk k.xs (i + 1)) (getk k.ys i) (getk k.ys (i + 1))
    (getk k.ds i) (getk k.ds (i + 1)) y

/-- Slopes of the segments: `m[i] = (y[i+1] - y[i]) / (x[i+1] - x[i])`. -/
def slopes (xs ys : List K) : List K :=
  (List.range (xs.length - 1)).map
    (fun i => (getk ys (i + 1) - getk ys i) / (getk xs (i + 1) - getk xs i))

/-- `SplineTemplate.smooth_derivatives` (default `bc_type='not-ones'`):
boundary knots get the adjacent segment's slope (or `1` for `bc_type='ones'`),
interior knots the average of the two adjacent slopes. -/
def smoothDerivatives22 (xs ys : List K) (bcType : String) : List K :=
  let m := slopes xs ys
  let mAvg := (List.range (xs.length - 2)).map
    (fun i => (1 / 2 : K) * (getk m (i + 1) + getk m i))
  let mLeft : List K := if bcType = "ones" then [1] else [getk m 0]
  let mRight : List K := if bcType = "ones" then [1] else [getk m (m.length - 1)]
  mLeft ++ mAvg ++ mRight

/-- The `d_list` loop of `Pade11Spline.smooth_derivatives`: starting from the
seed, every step appends `m[k]^2 / d_list[-1]`. -/
def dlist11 : List K → K → List K
  | [], d => [d]
  | mk :: rest, d => d :: dlist11 rest (mk ^ 2 / d)

/-- The seed `d0` of `Pade11Spline.smooth_derivatives` for
`bc_type='natural'`: the alternating product of slopes, multiplied by `0`
and shifted by `1` (hence identically `1` in exact arithmetic). -/
def seed11 (xs ys : List K) : K :=
  let m := slopes xs ys
  let n := 2 * ((xs.length - 1) / 2)
  ((List.range (n / 2)).map (fun j => getk m (2 * j + 1) / getk m (2 * j))).prod
    * 0 + 1

/-- `Pade11Spline.smooth_derivatives`: only `bc_type='natural'` is accepted. -/
def smoothDerivatives11 (xs ys : List K) (bcType : String) :
    Except String (List K) :=
  if bcType = "natural" then
    .ok (dlist11 (slopes xs ys) (seed11 xs ys))
  else
    .error "bc_type is not know"

/-- `AugmentKnots.takecare_linear` on one batch row: a fictitious knot one
unit outside the boundary, obtained by linear extrapolation. -/
def takecareLinearRow (k : Knots K) (left right : Option String) : Knots K :=
  let n := k.xs.length
  let xl : List K := if left = some "linear" then [getk k.xs 0 - 1] else []
  let yl : List K := if left = some "linear" then [getk k.ys 0 - getk k.ds 0] else []
  let dl : List K := if left = some "linear" then [getk k.ds 0] else []
  let xr : List K := if right = some "linear" then [getk k.xs (n - 1) + 1] else []
  let yr : List K := if right = some "linear" then [getk k.ys (n - 1) + getk k.ds (n - 1)] else []
  let dr : List K := if right = some "linear" then [getk k.ds (n - 1)] else []
  ⟨xl ++ k.xs ++ xr, yl ++ k.ys ++ yr, dl ++ k.ds ++ dr⟩

/-- `AugmentKnots.takecare_rest` on one batch row (reflection part only;
the boundary-derivative check aggregates over the batch and is performed
by `takecareRestBatch`). `selectflip(z, knot_ind[1:])` is
`(z.drop 1).reverse` and `selectflip(z, knot_ind[:-1])` is
`(z.take (n - 1)).reverse`. -/
def takecareRestRow (k : Knots K) (left right : Option String) : Knots K :=
  let n := k.xs.length
  let xl : List K :=
    if left = some "anti" ∨ left = some "anti-periodic" then
      (k.xs.drop 1).reverse.map (fun t => 2 * getk k.xs 0 - t)
    else if left = some "periodic" then
      (k.xs.drop 1).reverse.map (fun t => 2 * getk k.xs 0 - t)
    else []
  let yl : List K :=
    if left = some "anti" ∨ left = some "anti-periodic" then
      (k.ys.drop 1).reverse.map (fun t => 2 * getk k.ys 0 - t)
    else if left = some "periodic" then
      (k.ys.drop 1).reverse
    else []
  let dl : List K :=
    if left = some "anti" ∨ left = some "anti-periodic" then
      (k.ds.drop 1).reverse
    else if left = some "periodic" then
      (k.ds.drop 1).reverse.map (fun t => -t)
    else []
  let xr : List K :=
    if right = some "anti" ∨ right = some "anti-periodic" then
      (k.xs.take (n - 1)).reverse.map (fun t => 2 * getk k.xs (n - 1) - t)
    else if right = some "periodic" then
      (k.xs.take (n - 1)).reverse.map (fun t => 2 * getk k.xs (n - 1) - t)
    else []
  let yr : List K :=
    if right = some "anti" ∨ right = some "anti-periodic" then
      (k.ys.take (n - 1)).reverse.map (fun t => 2 * getk k.ys (n - 1) - t)
    else if right = some "periodic" then
      (k.ys.take (n - 1)).reverse
    else []
  let dr : List K :=
    if right = some "anti" ∨ right = some "anti-periodic" then
      (k.ds.take (n - 1)).reverse
    else if right = some "periodic" then
      (k.ds.take (n - 1)).reverse.map (fun t => -t)
    else []
  ⟨xl ++ k.xs ++ xr, yl ++ k.ys ++ yr, dl ++ k.ds ++ dr⟩

/-- `AugmentKnots.takecare_rest` on a batch: for a `periodic` side the check
`not sum(index_select(d, axis, boundary) == 0)` raises unless the boundary
derivative vanishes in at least one batch row; otherwise the reflection is
applied to every row. -/
def takecareRestBatch (b : List (Knots K)) (left right : Option String) :
    Except String (List (Knots K)) :=
  if left = some "periodic" ∧
      b.countP (fun k => decide (getk k.ds 0 = 0)) = 0 then
    .error "Oops: derivative at periodic bc must be zero."
  else if right = some "periodic" ∧
      b.countP (fun k => decide (getk k.ds (k.ds.length - 1) = 0)) = 0 then
    .error "Oops: derivative at periodic bc must be zero."
  else
    .ok (b.map (fun k => takecareRestRow k left right))

/-- `AugmentKnots.perform_bc` on a batch. -/
def performBC (b : List (Knots K)) (left right : Option String) :
    Except String (List (Knots K)) :=
  if left = none ∧ right = none then .ok b
  else if left = some "linear" ∨ right = some "linear" then
    let b2 := b.map (fun k => takecareLinearRow k left right)
    if left = none ∨ right = none then .ok b2
    else takecareRestBatch b2 left right
  else takecareRestBatch b left right

/-- `SplineTemplate.__init__` for `Pade22Spline` on one batch row: shape
check, optional derivative smoothing, then knot augmentation. -/
def construct22 (xs ys : List K) (ds : Option (List K)) (extrapolate : Bool)
    (left right : Option String) : Except String (Knots K) :=
  if extrapolate = false then
    .error "extrapolate == False is not supported yet!"
  else if xs.length ≠ ys.length then
    .error "x and y must have the same shape."
  else
    let d := match ds with
      | some d => d
      | none => smoothDerivatives22 xs ys "not-ones"
    (performBC [⟨xs, ys, d⟩] left right).map
      (fun b => b.getD 0 ⟨[], [], []⟩)

theorem getk_cons_zero (a : K) (t : List K) : getk (a :: t) 0 = a := rfl

theorem getk_cons_succ (a : K) (t : List K) (i : ℕ) :
    getk (a :: t) (i + 1) = getk t i := rfl

theorem searchsorted_le_length (xs : List K) (v : K) :
    searchsorted xs v ≤ xs.length := by
  induction xs with
  | nil => simp [searchsorted]
  | cons a t ih =>
    by_cases h : a < v
    · rw [searchsorted, if_pos h]
      simpa using ih
    · rw [searchsorted, if_neg h]
      exact Nat.zero_le _

theorem getk_lt_of_lt_searchsorted (xs : List K) (v : K) (j : ℕ)
    (hj : j < searchsorted xs v) : getk xs j < v := by
  induction xs generalizing j with
  | nil => simp [searchsorted] at hj
  | cons a t ih =>
    by_cases h : a < v
    · cases j with
      | zero => simpa [getk_cons_zero]
      | succ j' =>
        rw [searchsorted, if_pos h] at hj
        rw [getk_cons_succ]
        exact ih j' (by omega)
    · rw [searchsorted, if_neg h] at hj
      omega

theorem le_getk_searchsorted (xs : List K) (v : K)
    (h : searchsorted xs v < xs.length) :
    v ≤ getk xs (searchsorted xs v) := by
  induction xs with
  | nil => simp at h
  | cons a t ih =>
    by_cases hav : a < v
    · rw [searchsorted, if_pos hav] at h ⊢
      rw [getk_cons_succ]
      exact ih (by simpa using h)
    · rw [searchsorted, if_neg hav]
      rw [getk_cons_zero]
      exact not_lt.1 hav

theorem searchsorted_eq_of_between (xs : List K) (v : K) (i : ℕ)
    (hs : sortedLT xs) (hi : i + 1 < xs.length)
    (h1 : getk xs i < v) (h2 : v ≤ getk xs (i + 1)) :
    searchsorted xs v = i + 1 := by
  have hle := searchsorted_le_length xs v
  by_contra hne
  rcases lt_or_gt_of_ne hne with hlt | hgt
  · have hsl : searchsorted xs v < xs.length := by omega
    have hv := le_getk_searchsorted xs v hsl
    have hmono : getk xs (searchsorted xs v) ≤ getk xs i := by
      rcases Nat.eq_or_lt_of_le (show searchsorted xs v ≤ i by omega) with he | hl
      · rw [he]
      · exact (hs _ i hl (by omega)).le
    linarith
  · have := getk_lt_of_lt_searchsorted xs v (i + 1) (by omega)
    linarith

theorem searchsorted_getk (xs : List K) (i : ℕ) (hs : sortedLT xs)
    (hi : i < xs.length) : searchsorted xs (getk xs i) = i := by
  have hle := searchsorted_le_length xs (getk xs i)
  by_contra hne
  rcases lt_or_gt_of_ne hne with hlt | hgt
  · have hsl : searchsorted xs (getk xs i) < xs.length := by omega
    have hv := le_getk_searchsorted xs (getk xs i) hsl
    have := hs _ i hlt hi
    linarith
  · have := getk_lt_of_lt_searchsorted xs (getk xs i) i (by omega)
    linarith

theorem searchsorted_eq_length (xs : List K) (v : K)
    (h : ∀ j, j < xs.length → getk xs j < v) :
    searchsorted xs v = xs.length := by
  have hle := searchsorted_le_length xs v
  by_contra hne
  have hsl : searchsorted xs v < xs.length := by omega
  have hv := le_getk_searchsorted xs v hsl
  have := h _ hsl
  linarith

theorem searchsorted_eq_zero (xs : List K) (v : K)
    (hne : xs ≠ []) (h : v ≤ getk xs 0) : searchsorted xs v = 0 := by
  cases xs with
  | nil => exact absurd rfl hne
  | cons a t =>
    rw [getk_cons_zero] at h
    rw [searchsorted, if_neg (not_lt.2 h)]

theorem segmentIndex_spec (xs : List K) (v : K)
    (hs : sortedLT xs) (hn : 2 ≤ xs.length)
    (h0 : getk xs 0 ≤ v) (h1 : v ≤ getk xs (xs.length - 1)) :
    segmentIndex xs (xs.length - 1) v + 1 < xs.length ∧
    getk xs (segmentIndex xs (xs.length - 1) v) ≤ v ∧
    v ≤ getk xs (segmentIndex xs (xs.length - 1) v + 1) ∧
    (segmentIndex xs (xs.length - 1) v = 0 ∨
      getk xs (segmentIndex xs (xs.length - 1) v) < v) := by
  have hle := searchsorted_le_length xs v
  have hub : searchsorted xs v ≤ xs.length - 1 := by
    by_contra hc
    have hlen : searchsorted xs v = xs.length := by omega
    have := getk_lt_of_lt_searchsorted xs v (xs.length - 1) (by omega)
    linarith
  rcases Nat.eq_zero_or_pos (searchsorted xs v) with hz | hp
  · have hi : segmentIndex xs (xs.length - 1) v = 0 := by
      simp only [segmentIndex, hz]
      omega
    have hveq : v ≤ getk xs 0 := by
      cases xs with
      | nil => simp at hn
      | cons a t =>
        rw [getk_cons_zero]
        by_contra hc
        rw [searchsorted, if_pos (not_le.1 hc)] at hz
        omega
    have hv0 : v = getk xs 0 := le_antisymm hveq h0
    refine ⟨by omega, ?_, ?_, Or.inl hi⟩
    · rw [hi]; exact h0
    · rw [hi, hv0]
      exact (hs 0 1 one_pos (by omega)).le
  · have hi : segmentIndex xs (xs.length - 1) v = searchsorted xs v - 1 := by
      simp [segmentIndex]
      omega
    have hlt := getk_lt_of_lt_searchsorted xs v (searchsorted xs v - 1) (by omega)
    have hub2 : v ≤ getk xs (searchsorted xs v) :=
      le_getk_searchsorted xs v (by omega)
    refine ⟨by omega, ?_, ?_, Or.inr ?_⟩
    · rw [hi]; exact hlt.le
    · rw [hi, Nat.sub_add_cancel hp]; exact hub2
    · rw [hi]; exact hlt

theorem pade22_g0_left (x0 x1 y0 y1 d0 d1 : K) :
    pade22_g0 x0 x1 y0 y1 d0 d1 x0 = y0 := by
  simp [pade22_g0]

theorem pade22_g0_right (x0 x1 y0 y1 d0 d1 : K)
    (hx : x1 - x0 ≠ 0) (hm : (y1 - y0) / (x1 - x0) ≠ 0) :
    pade22_g0 x0 x1 y0 y1 d0 d1 x1 = y1 := by
  rw [pade22_g0]
  simp only [div_self hx]
  rw [show (1 : K) - 1 = 0 by ring]
  simp only [mul_zero, zero_mul, mul_one, add_zero, mul_zero]
  rw [mul_div_assoc, div_self hm]
  ring

theorem pade11_g0_left (x0 x1 y0 y1 d0 : K) :
    pade11_g0 x0 x1 y0 y1 d0 x0 = y0 := by
  simp [pade11_g0]

theorem pade11_g0_right (x0 x1 y0 y1 d0 : K)
    (hx : x1 - x0 ≠ 0) (hd : d0 ≠ 0) :
    pade11_g0 x0 x1 y0 y1 d0 x1 = y1 := by
  rw [pade11_g0]
  simp only [div_self hx, mul_one]
  rw [show (y1 - y0) / (x1 - x0) + (d0 - (y1 - y0) / (x1 - x0)) = d0 by ring]
  rw [mul_div_assoc, div_self hd]
  ring

theorem getk_eq_getElem (l : List K) (j : ℕ) (h : j < l.length) :
    getk l j = l[j] :=
  List.getD_eq_getElem l 0 h

theorem getk_append_left (l1 l2 : List K) (j : ℕ) (h : j < l1.length) :
    getk (l1 ++ l2) j = getk l1 j :=
  List.getD_append l1 l2 0 j h

theorem getk_append_right (l1 l2 : List K) (j : ℕ) (h : l1.length ≤ j) :
    getk (l1 ++ l2) j = getk l2 (j - l1.length) :=
  List.getD_append_right l1 l2 0 j h

theorem getk_map_range (f : ℕ → K) (n j : ℕ) (h : j < n) :
    getk ((List.range n).map f) j = f j := by
  rw [getk_eq_getElem _ _ (by simpa using h)]
  simp

theorem slopes_length (xs ys : List K) :
    (slopes xs ys).length = xs.length - 1 := by
  simp [slopes]

theorem getk_slopes (xs ys : List K) (j : ℕ) (h : j + 1 < xs.length) :
    getk (slopes xs ys) j
      = (getk ys (j + 1) - getk ys j) / (getk xs (j + 1) - getk xs j) := by
  rw [slopes, getk_map_range]
  omega

/-- **C2, counterexample.** The claim says a spline constructed with an
unknown boundary-selector string fails with a hard error; in the code the
string `"fo"` matches none of the selector branches of
`AugmentKnots.takecare_rest`, every fictitious part stays `None`, and
construction completes normally with the knots unchanged. -/
theorem c2_counterexample :
    construct22 (K := ℚ) [0, 1] [0, 1] (some [1, 1]) true (some "fo") none
        = .ok ⟨[0, 1], [0, 1], [1, 1]⟩ ∧
    "fo" ∉ (["linear", "periodic", "anti-periodic", "anti"] : List String) := by
  exact ⟨rfl, by decide⟩

/-- **C2 (amended).** An unknown boundary-selector string does not raise: it
falls through every branch of `perform_bc`/`takecare_rest`, is treated
exactly like `None` (no augmentation on that side), and construction
completes with the knot set unchanged. -/
theorem c2_unknown_selector_ignored (k : Knots K) (s t : String)
    (hs : s ∉ (["linear", "periodic", "anti-periodic", "anti"] : List String))
    (ht : t ∉ (["linear", "periodic", "anti-periodic", "anti"] : List String)) :
    performBC [k] (some s) (some t) = .ok [k] ∧
    performBC [k] (some s) none = .ok [k] ∧
    performBC [k] none (some t) = .ok [k] := by
  simp only [List.mem_cons, List.not_mem_nil, or_false, not_or] at hs ht
  obtain ⟨hs1, hs2, hs3, hs4⟩ := hs
  obtain ⟨ht1, ht2, ht3, ht4⟩ := ht
  have hrow : ∀ l r : Option String,
      (l = none ∨ l = some s) → (r = none ∨ r = some t) →
      takecareRestRow k l r = k := by
    intro l r hl hr
    cases k with
    | mk xs ys ds =>
      rcases hl with hl | hl <;> rcases hr with hr | hr <;>
        simp [takecareRestRow, hl, hr, hs1, hs2, hs3, hs4, ht1, ht2, ht3, ht4]
  refine ⟨?_, ?_, ?_⟩
  · simp [performBC, takecareRestBatch, hs1, hs2, ht1, ht2,
      hrow (some s) (some t) (Or.inr rfl) (Or.inr rfl)]
  · simp [performBC, takecareRestBatch, hs1, hs2,
      hrow (some s) none (Or.inr rfl) (Or.inl rfl)]
  · simp [performBC, takecareRestBatch, ht1, ht2,
      hrow none (some t) (Or.inl rfl) (Or.inr rfl)]

/-- **C2 (amended), witness.** -/
theorem c2_unknown_selector_ignored_witness :
    performBC [(⟨[0, 1], [0, 1], [1, 1]⟩ : Knots ℚ)] (some "foo") (some "bar")
      = .ok [⟨[0, 1], [0, 1], [1, 1]⟩] :=
  (c2_unknown_selector_ignored ⟨[0, 1], [0, 1], [1, 1]⟩ "foo" "bar"
    (by decide) (by decide)).1

/-- **C4.** With `extrap_left='linear'` (resp. `extrap_right='linear'`) and
the other selector `None`, augmentation adds exactly one fictitious knot on
that side: `x = x_boundary ∓ 1`, `y = y_boundary ∓ d_boundary`,
`d = d_boundary`, and nothing else is added on either side. -/
theorem c4_linear_augmentation (k : Knots K) :
    performBC [k] (some "linear") none =
      .ok [⟨(getk k.xs 0 - 1) :: k.xs,
            (getk k.ys 0 - getk k.ds 0) :: k.ys,
            (getk k.ds 0) :: k.ds⟩] ∧
    performBC [k] none (some "linear") =
      .ok [⟨k.xs ++ [getk k.xs (k.xs.length - 1) + 1],
            k.ys ++ [getk k.ys (k.xs.length - 1) + getk k.ds (k.xs.length - 1)],
            k.ds ++ [getk k.ds (k.xs.length - 1)]⟩] := by
  cases k with
  | mk xs ys ds => exact ⟨by simp [performBC, takecareLinearRow],
      by simp [performBC, takecareLinearRow]⟩

theorem smoothDerivatives22_spec (xs ys : List K) (bc : String)
    (hn : 2 ≤ xs.length) :
    (smoothDerivatives22 xs ys bc).length = xs.length ∧
    getk (smoothDerivatives22 xs ys bc) 0
      = (if bc = "ones" then 1 else getk (slopes xs ys) 0) ∧
    getk (smoothDerivatives22 xs ys bc) (xs.length - 1)
      = (if bc = "ones" then 1
          else getk (slopes xs ys) ((slopes xs ys).length - 1)) ∧
    ∀ j, 1 ≤ j → j ≤ xs.length - 2 →
      getk (smoothDerivatives22 xs ys bc) j
        = (getk (slopes xs ys) (j - 1) + getk (slopes xs ys) j) / 2 := by
  have hlen1 :
      (if bc = "ones" then [(1 : K)] else [getk (slopes xs ys) 0]).length = 1 := by
    split <;> rfl
  have hlen2 :
      (if bc = "ones" then [(1 : K)]
        else [getk (slopes xs ys) ((slopes xs ys).length - 1)]).length = 1 := by
    split <;> rfl
  have hlenL : ∀ l2 : List K,
      ((if bc = "ones" then [(1 : K)] else [getk (slopes xs ys) 0]) ++ l2).length
        = 1 + l2.length := by
    intro l2
    rw [List.length_append, hlen1]
  refine ⟨?_, ?_, ?_, ?_⟩
  · simp only [smoothDerivatives22, List.length_append, List.length_map,
      List.length_range, hlen1, hlen2]
    omega
  · rw [smoothDerivatives22]
    rw [getk_append_left _ _ 0 (by rw [hlenL]; omega)]
    rw [getk_append_left _ _ 0 (by rw [hlen1]; norm_num)]
    split <;> simp [getk]
  · rw [smoothDerivatives22]
    rw [getk_append_right _ _ (xs.length - 1)
      (by rw [hlenL]; simp only [List.length_map, List.length_range]; omega)]
    rw [hlenL]
    simp only [List.length_map, List.length_range]
    have : xs.length - 1 - (1 + (xs.length - 2)) = 0 := by omega
    rw [this]
    split <;> simp [getk]
  · intro j hj1 hj2
    rw [smoothDerivatives22]
    rw [getk_append_left _ _ j
      (by rw [hlenL]; simp only [List.length_map, List.length_range]; omega)]
    rw [getk_append_right _ _ j (by rw [hlen1]; omega)]
    rw [hlen1, getk_map_range _ _ (j - 1) (by omega)]
    have : j - 1 + 1 = j := by omega
    rw [this]
    ring

/-- **C5.** With `knots_d` omitted, the template smoothing used by
`Pade22Spline` (default `bc_type='not-ones'`) assigns each interior knot the
average of its two adjacent segment slopes and each boundary knot the slope
of its single adjacent segment; the `bc_type='ones'` variant forces the two
boundary derivatives to `1`. -/
theorem c5_smooth_derivatives22 (xs ys : List K) (hn : 2 ≤ xs.length) :
    (smoothDerivatives22 xs ys "not-ones").length = xs.length ∧
    getk (smoothDerivatives22 xs ys "not-ones") 0 = getk (slopes xs ys) 0 ∧
    getk (smoothDerivatives22 xs ys "not-ones") (xs.length - 1)
      = getk (slopes xs ys) (xs.length - 2) ∧
    (∀ j, 1 ≤ j → j ≤ xs.length - 2 →
      getk (smoothDerivatives22 xs ys "not-ones") j
        = (getk (slopes xs ys) (j - 1) + getk (slopes xs ys) j) / 2) ∧
    getk (smoothDerivatives22 xs ys "ones") 0 = 1 ∧
    getk (smoothDerivatives22 xs ys "ones") (xs.length - 1) = 1 ∧
    (∀ j, 1 ≤ j → j ≤ xs.length - 2 →
      getk (smoothDerivatives22 xs ys "ones") j
        = (getk (slopes xs ys) (j - 1) + getk (slopes xs ys) j) / 2) := by
  obtain ⟨ha, hb, hc, hd⟩ := smoothDerivatives22_spec xs ys "not-ones" hn
  obtain ⟨_, hb2, hc2, hd2⟩ := smoothDerivatives22_spec xs ys "ones" hn
  have hsl : (slopes xs ys).length - 1 = xs.length - 2 := by
    rw [slopes_length]; omega
  refine ⟨ha, by simpa using hb, ?_, hd, by simpa using hb2,
    by simpa using hc2, hd2⟩
  rw [hc]
  simp [hsl]

/-- **C5, witness.** -/
theorem c5_smooth_derivatives22_witness :
    2 ≤ ([0, 1, 3] : List ℚ).length ∧
    ((smoothDerivatives22 ([0, 1, 3] : List ℚ) [0, 2, 4] "not-ones").length = 3 ∧
      getk (smoothDerivatives22 ([0, 1, 3] : List ℚ) [0, 2, 4] "not-ones") 0
        = getk (slopes ([0, 1, 3] : List ℚ) [0, 2, 4]) 0 ∧
      getk (smoothDerivatives22 ([0, 1, 3] : List ℚ) [0, 2, 4] "not-ones") 2
        = getk (slopes ([0, 1, 3] : List ℚ) [0, 2, 4]) 1 ∧
      (∀ j, 1 ≤ j → j ≤ 1 →
        getk (smoothDerivatives22 ([0, 1, 3] : List ℚ) [0, 2, 4] "not-ones") j
          = (getk (slopes ([0, 1, 3] : List ℚ) [0, 2, 4]) (j - 1)
              + getk (slopes ([0, 1, 3] : List ℚ) [0, 2, 4]) j) / 2) ∧
      getk (smoothDerivatives22 ([0, 1, 3] : List ℚ) [0, 2, 4] "ones") 0 = 1 ∧
      getk (smoothDerivatives22 ([0, 1, 3] : List ℚ) [0, 2, 4] "ones") 2 = 1 ∧
      (∀ j, 1 ≤ j → j ≤ 1 →
        getk (smoothDerivatives22 ([0, 1, 3] : List ℚ) [0, 2, 4] "ones") j
          = (getk (slopes ([0, 1, 3] : List ℚ) [0, 2, 4]) (j - 1)
              + getk (slopes ([0, 1, 3] : List ℚ) [0, 2, 4]) j) / 2)) :=
  ⟨by decide, c5_smooth_derivatives22 [0, 1, 3] [0, 2, 4] (by decide)⟩

theorem dlist11_length (m : List K) (d : K) :
    (dlist11 m d).length = m.length + 1 := by
  induction m generalizing d with
  | nil => rfl
  | cons a t ih => simp [dlist11, ih]

theorem dlist11_zero (m : List K) (d : K) : getk (dlist11 m d) 0 = d := by
  cases m <;> rfl

theorem dlist11_succ (m : List K) (d : K) (k : ℕ) (hk : k < m.length) :
    getk (dlist11 m d) (k + 1) = getk m k ^ 2 / getk (dlist11 m d) k := by
  induction m generalizing d k with
  | nil => simp at hk
  | cons a t ih =>
    cases k with
    | zero =>
      rw [dlist11, getk_cons_succ, dlist11_zero, getk_cons_zero, getk_cons_zero]
    | succ k' =>
      rw [dlist11, getk_cons_succ, getk_cons_succ, getk_cons_succ]
      exact ih (a ^ 2 / d) k' (by simpa using hk)

theorem seed11_eq_one (xs ys : List K) : seed11 xs ys = 1 := by
  simp [seed11]

/-- **C9.** `Pade11Spline.smooth_derivatives` with `bc_type='natural'`
returns the sequence seeded with `d[0] = 1` (the alternating slope product is
multiplied by `0`) and defined by `d[k+1] = slope[k]^2 / d[k]` for
`k = 0 .. knots_len-2`; any other `bc_type` raises an error. -/
theorem c9_pade11_natural_recurrence (xs ys : List K) (bc : String)
    (hn : 2 ≤ xs.length) (hbc : bc ≠ "natural") :
    (∀ l, smoothDerivatives11 xs ys "natural" = .ok l →
      l.length = xs.length ∧
      getk l 0 = 1 ∧
      ∀ k, k < xs.length - 1 →
        getk l (k + 1) = getk (slopes xs ys) k ^ 2 / getk l k) ∧
    smoothDerivatives11 xs ys bc = .error "bc_type is not know" := by
  constructor
  · intro l hl
    rw [smoothDerivatives11, if_pos rfl] at hl
    injection hl with hl
    subst hl
    refine ⟨?_, ?_, ?_⟩
    · rw [dlist11_length, slopes_length]
      omega
    · rw [dlist11_zero, seed11_eq_one]
    · intro k hk
      exact dlist11_succ _ _ k (by rw [slopes_length]; omega)
  · rw [smoothDerivatives11, if_neg hbc]

/-- **C9, witness.** -/
theorem c9_pade11_natural_recurrence_witness :
    (2 ≤ ([0, 1, 3] : List ℚ).length ∧ "other" ≠ "natural") ∧
    ((∀ l, smoothDerivatives11 ([0, 1, 3] : List ℚ) [0, 2, 4] "natural" = .ok l →
        l.length = 3 ∧
        getk l 0 = 1 ∧
        ∀ k, k < 2 →
          getk l (k + 1) = getk (slopes ([0, 1, 3] : List ℚ) [0, 2, 4]) k ^ 2
            / getk l k) ∧
      smoothDerivatives11 ([0, 1, 3] : List ℚ) [0, 2, 4] "other"
        = .error "bc_type is not know") :=
  ⟨⟨by decide, by decide⟩,
    c9_pade11_natural_recurrence [0, 1, 3] [0, 2, 4] "other" (by decide) (by decide)⟩

theorem takecareRestBatch_ok (b b2 : List (Knots K)) (left right : Option String)
    (h : takecareRestBatch b left right = .ok b2) :
    b2 = b.map (fun k => takecareRestRow k left right) := by
  rw [takecareRestBatch] at h
  split at h
  · exact absurd h (by simp)
  · split at h
    · exact absurd h (by simp)
    · injection h with h
      exact h.symm

/-- **C3, counterexample.** With a batch of two knot rows, one with zero and
one with nonzero boundary derivative, `extrap_left='periodic'` passes the
boundary check (the code raises only when `sum(d[..., :1] == 0)` is zero,
i.e. when *no* batch row has zero boundary derivative), so construction
succeeds even though a boundary derivative is not exactly zero. -/
theorem c3_counterexample :
    (∃ b, performBC (K := ℚ)
        [⟨[0, 1], [0, 1], [0, 1]⟩, ⟨[0, 1], [0, 1], [5, 1]⟩]
        (some "periodic") none = .ok b) ∧
    getk ((⟨[0, 1], [0, 1], [5, 1]⟩ : Knots ℚ)).ds 0 ≠ 0 := by
  exact ⟨⟨_, rfl⟩, by decide⟩

theorem takecareRestBatch_left_periodic_spec (bb : List (Knots K)) :
    (takecareRestBatch bb (some "periodic") none
        = .error "Oops: derivative at periodic bc must be zero."
      ↔ ∀ kb ∈ bb, getk kb.ds 0 ≠ 0) ∧
    ((∃ b2, takecareRestBatch bb (some "periodic") none = .ok b2)
      ↔ ∃ kb ∈ bb, getk kb.ds 0 = 0) := by
  have hc : (bb.countP (fun kb => decide (getk kb.ds 0 = 0)) = 0)
      ↔ ∀ kb ∈ bb, getk kb.ds 0 ≠ 0 := by
    rw [List.countP_eq_zero]
    simp
  by_cases h : bb.countP (fun kb => decide (getk kb.ds 0 = 0)) = 0
  · rw [takecareRestBatch, if_pos ⟨rfl, h⟩]
    refine ⟨⟨fun _ => hc.1 h, fun _ => rfl⟩, ?_, ?_⟩
    · rintro ⟨b2, hb2⟩
      exact absurd hb2 (by simp)
    · rintro ⟨kb, hkb, hz⟩
      exact absurd hz (hc.1 h kb hkb)
  · rw [takecareRestBatch, if_neg (fun hcon => h hcon.2), if_neg (by simp)]
    have hex : ∃ kb ∈ bb, getk kb.ds 0 = 0 := by
      have hpos := Nat.pos_of_ne_zero h
      rw [List.countP_pos_iff] at hpos
      simpa using hpos
    refine ⟨⟨fun he => absurd he (by simp), fun hall => absurd (hc.2 hall) h⟩,
      fun _ => hex, fun _ => ⟨_, rfl⟩⟩

theorem takecareRestBatch_right_periodic_spec (bb : List (Knots K)) :
    takecareRestBatch bb none (some "periodic")
        = .error "Oops: derivative at periodic bc must be zero."
      ↔ ∀ kb ∈ bb, getk kb.ds (kb.ds.length - 1) ≠ 0 := by
  have hc : (bb.countP (fun kb =>
        decide (getk kb.ds (kb.ds.length - 1) = 0)) = 0)
      ↔ ∀ kb ∈ bb, getk kb.ds (kb.ds.length - 1) ≠ 0 := by
    rw [List.countP_eq_zero]
    simp
  by_cases h : bb.countP (fun kb =>
      decide (getk kb.ds (kb.ds.length - 1) = 0)) = 0
  · rw [takecareRestBatch, if_neg (by simp), if_pos ⟨rfl, h⟩]
    exact ⟨fun _ => hc.1 h, fun _ => rfl⟩
  · rw [takecareRestBatch, if_neg (by simp), if_neg (fun hcon => h hcon.2)]
    exact ⟨fun he => absurd he (by simp), fun hall => absurd (hc.2 hall) h⟩

/-- **C3 (amended).** The `periodic` boundary check aggregates over the whole
batch: construction fails iff *no* batch row has an exactly zero boundary
derivative at the corresponding side, and succeeds iff at least one row does
(for a batch of one this is exactly: the boundary derivative must be exactly
zero). -/
theorem c3_periodic_check (b : List (Knots K)) (k : Knots K) :
    (takecareRestBatch b (some "periodic") none
        = .error "Oops: derivative at periodic bc must be zero."
      ↔ ∀ kb ∈ b, getk kb.ds 0 ≠ 0) ∧
    ((∃ b2, takecareRestBatch b (some "periodic") none = .ok b2)
      ↔ ∃ kb ∈ b, getk kb.ds 0 = 0) ∧
    (takecareRestBatch b none (some "periodic")
        = .error "Oops: derivative at periodic bc must be zero."
      ↔ ∀ kb ∈ b, getk kb.ds (kb.ds.length - 1) ≠ 0) ∧
    ((∃ b2, takecareRestBatch [k] (some "periodic") none = .ok b2)
      ↔ getk k.ds 0 = 0) := by
  refine ⟨(takecareRestBatch_left_periodic_spec b).1,
    (takecareRestBatch_left_periodic_spec b).2,
    takecareRestBatch_right_periodic_spec b, ?_⟩
  rw [(takecareRestBatch_left_periodic_spec [k]).2]
  simp

theorem takecareLinearRow_lengths (k : Knots K) (left right : Option String) :
    (takecareLinearRow k left right).xs.length
      = (if left = some "linear" then 1 else 0) + k.xs.length
        + (if right = some "linear" then 1 else 0) ∧
    (takecareLinearRow k left right).ys.length
      = (if left = some "linear" then 1 else 0) + k.ys.length
        + (if right = some "linear" then 1 else 0) ∧
    (takecareLinearRow k left right).ds.length
      = (if left = some "linear" then 1 else 0) + k.ds.length
        + (if right = some "linear" then 1 else 0) := by
  by_cases hl : left = some "linear" <;> by_cases hr : right = some "linear" <;>
    simp [takecareLinearRow, hl, hr] <;> omega

/-- Number of knots a `periodic`/`anti-periodic` selector adds to a side when
`takecare_rest` runs on arrays of length `L`. -/
def restAdd (s : Option String) (L : ℕ) : ℕ :=
  if s = some "anti" ∨ s = some "anti-periodic" ∨ s = some "periodic" then L - 1
  else 0

theorem takecareRestRow_lengths (k : Knots K) (left right : Option String)
    (hy : k.ys.length = k.xs.length) (hd : k.ds.length = k.xs.length) :
    (takecareRestRow k left right).xs.length
      = restAdd left k.xs.length + k.xs.length + restAdd right k.xs.length ∧
    (takecareRestRow k left right).ys.length
      = restAdd left k.xs.length + k.xs.length + restAdd right k.xs.length ∧
    (takecareRestRow k left right).ds.length
      = restAdd left k.xs.length + k.xs.length + restAdd right k.xs.length := by
  by_cases h1 : left = some "anti" ∨ left = some "anti-periodic" <;>
    by_cases h2 : left = some "periodic" <;>
    by_cases h3 : right = some "anti" ∨ right = some "anti-periodic" <;>
    by_cases h4 : right = some "periodic" <;>
    refine ⟨?_, ?_, ?_⟩ <;>
    simp [takecareRestRow, restAdd, h1, h2, h4, h3, hy, hd] <;>
    omega

/-- **C10, counterexample.** With `extrap_left='anti'`, `extrap_right='linear'`
and 2 original knots, the claim predicts
`knots_len = 2 + (2 - 1) + 1 = 4`, but `takecare_rest` reflects the already
linearly-augmented arrays, so the stored `knots_len` is 5. -/
theorem c10_counterexample :
    ∃ kk : Knots ℚ,
      construct22 ([0, 1] : List ℚ) [0, 1] (some [1, 1]) true
        (some "anti") (some "linear") = .ok kk ∧
      kk.xs.length = 5 ∧ kk.xs.length ≠ 2 + (2 - 1) + 1 := by
  exact ⟨_, rfl, rfl, by decide⟩

/-- The stored knot count that the control flow of `perform_bc` forces
(amended bookkeeping): a `linear` side adds one knot; a
`periodic`/`anti`/`anti-periodic` side adds `L - 1` knots where `L` is the
array length at the time `takecare_rest` runs, i.e. the original length plus
any knots already added by `takecare_linear`. -/
def expectedAugLen (left right : Option String) (n : ℕ) : ℕ :=
  if left = none ∧ right = none then n
  else if (left = some "linear" ∨ right = some "linear")
      ∧ (left = none ∨ right = none) then
    n + ((if left = some "linear" then 1 else 0)
      + (if right = some "linear" then 1 else 0))
  else
    n + ((if left = some "linear" then 1 else 0)
        + (if right = some "linear" then 1 else 0))
      + restAdd left (n + ((if left = some "linear" then 1 else 0)
        + (if right = some "linear" then 1 else 0)))
      + restAdd right (n + ((if left = some "linear" then 1 else 0)
        + (if right = some "linear" then 1 else 0)))

/-- **C10 (amended).** After a successful construction the stored `knots_x`,
`knots_y`, `knots_d` have identical shapes and `knots_len` is the size of the
augmented arrays: a `linear` side adds exactly 1, while a `periodic` or
`anti-periodic` side adds `L - 1` where `L` is the length at the time the
reflection runs — this is `original length - 1` only when no `linear` side
is present; combined with a `linear` side it is the original length. -/
theorem c10_construction_lengths (xs ys ds : List K) (left right : Option String)
    (hy : ys.length = xs.length) (hd : ds.length = xs.length)
    (kk : Knots K)
    (hok : construct22 xs ys (some ds) true left right = .ok kk) :
    kk.xs.length = expectedAugLen left right xs.length ∧
    kk.ys.length = kk.xs.length ∧
    kk.ds.length = kk.xs.length := by
  rw [construct22, if_neg (by simp), if_neg (by omega)] at hok
  have hok2 : Except.map (fun b => b.getD 0 (⟨[], [], []⟩ : Knots K))
      (performBC [(⟨xs, ys, ds⟩ : Knots K)] left right) = .ok kk := hok
  clear hok
  cases hp : performBC [(⟨xs, ys, ds⟩ : Knots K)] left right with
  | error e =>
    rw [hp] at hok2
    exact absurd hok2 (by simp [Except.map])
  | ok b =>
    rw [hp] at hok2
    simp only [Except.map] at hok2
    injection hok2 with hok2
    by_cases hbn : left = none ∧ right = none
    · rw [performBC, if_pos hbn] at hp
      injection hp with hp
      subst hp
      subst hok2
      rw [expectedAugLen, if_pos hbn]
      refine ⟨rfl, ?_, ?_⟩ <;> simp [hy, hd]
    · by_cases hlin : left = some "linear" ∨ right = some "linear"
      · obtain ⟨e1, e2, e3⟩ :
            (takecareLinearRow (⟨xs, ys, ds⟩ : Knots K) left right).xs.length
              = (if left = some "linear" then 1 else 0) + xs.length
                + (if right = some "linear" then 1 else 0) ∧
            (takecareLinearRow (⟨xs, ys, ds⟩ : Knots K) left right).ys.length
              = (if left = some "linear" then 1 else 0) + ys.length
                + (if right = some "linear" then 1 else 0) ∧
            (takecareLinearRow (⟨xs, ys, ds⟩ : Knots K) left right).ds.length
              = (if left = some "linear" then 1 else 0) + ds.length
                + (if right = some "linear" then 1 else 0) :=
          takecareLinearRow_lengths (⟨xs, ys, ds⟩ : Knots K) left right
        by_cases hone : left = none ∨ right = none
        · rw [performBC, if_neg hbn, if_pos hlin, if_pos hone] at hp
          injection hp with hp
          subst hp
          subst hok2
          rw [expectedAugLen, if_neg hbn, if_pos ⟨hlin, hone⟩]
          simp only [List.map_cons, List.map_nil, List.getD_cons_zero]
          refine ⟨?_, ?_, ?_⟩
          · rw [e1]; omega
          · rw [e2, e1, hy]
          · rw [e3, e1, hd]
        · rw [performBC, if_neg hbn, if_pos hlin, if_neg hone] at hp
          have hb := takecareRestBatch_ok _ _ _ _ hp
          subst hb
          subst hok2
          obtain ⟨f1, f2, f3⟩ := takecareRestRow_lengths
            (takecareLinearRow (⟨xs, ys, ds⟩ : Knots K) left right) left right
            (by rw [e2, e1, hy]) (by rw [e3, e1, hd])
          rw [e1] at f1 f2 f3
          have harg : (if left = some "linear" then 1 else 0) + xs.length
              + (if right = some "linear" then 1 else 0)
              = xs.length + ((if left = some "linear" then 1 else 0)
                + (if right = some "linear" then 1 else 0)) := by omega
          rw [harg] at f1 f2 f3
          rw [expectedAugLen, if_neg hbn, if_neg (fun hcon => hone hcon.2)]
          simp only [List.map_cons, List.map_nil, List.getD_cons_zero]
          refine ⟨?_, ?_, ?_⟩
          · rw [f1]; omega
          · rw [f2, f1]
          · rw [f3, f1]
      · rw [performBC, if_neg hbn, if_neg hlin] at hp
        have hb := takecareRestBatch_ok _ _ _ _ hp
        subst hb
        subst hok2
        obtain ⟨f1, f2, f3⟩ :
            (takecareRestRow (⟨xs, ys, ds⟩ : Knots K) left right).xs.length
              = restAdd left xs.length + xs.length + restAdd right xs.length ∧
            (takecareRestRow (⟨xs, ys, ds⟩ : Knots K) left right).ys.length
              = restAdd left xs.length + xs.length + restAdd right xs.length ∧
            (takecareRestRow (⟨xs, ys, ds⟩ : Knots K) left right).ds.length
              = restAdd left xs.length + xs.length + restAdd right xs.length :=
          takecareRestRow_lengths (⟨xs, ys, ds⟩ : Knots K) left right hy hd
        have hz1 : (if left = some "linear" then 1 else 0) = 0 :=
          if_neg (fun hcon => hlin (Or.inl hcon))
        have hz2 : (if right = some "linear" then 1 else 0) = 0 :=
          if_neg (fun hcon => hlin (Or.inr hcon))
        rw [expectedAugLen, if_neg hbn, if_neg (fun hcon => hlin hcon.1)]
        rw [hz1, hz2]
        simp only [Nat.add_zero]
        simp only [List.map_cons, List.map_nil, List.getD_cons_zero]
        refine ⟨?_, ?_, ?_⟩
        · rw [f1]; omega
        · rw [f2, f1]
        · rw [f3, f1]

/-- **C10 (amended), witness.** -/
theorem c10_construction_lengths_witness :
    (([0, 2, 4] : List ℚ).length = ([0, 1, 3] : List ℚ).length ∧
      ([1, 1, 1] : List ℚ).length = ([0, 1, 3] : List ℚ).length ∧
      construct22 ([0, 1, 3] : List ℚ) [0, 2, 4] (some [1, 1, 1]) true
        (some "anti") none = .ok
          ⟨[-3, -1, 0, 1, 3], [-4, -2, 0, 2, 4], [1, 1, 1, 1, 1]⟩) ∧
    ((⟨[-3, -1, 0, 1, 3], [-4, -2, 0, 2, 4], [1, 1, 1, 1, 1]⟩ : Knots ℚ).xs.length
        = expectedAugLen (some "anti") none 3 ∧
      (⟨[-3, -1, 0, 1, 3], [-4, -2, 0, 2, 4], [1, 1, 1, 1, 1]⟩ : Knots ℚ).ys.length
        = (⟨[-3, -1, 0, 1, 3], [-4, -2, 0, 2, 4], [1, 1, 1, 1, 1]⟩ : Knots ℚ).xs.length ∧
      (⟨[-3, -1, 0, 1, 3], [-4, -2, 0, 2, 4], [1, 1, 1, 1, 1]⟩ : Knots ℚ).ds.length
        = (⟨[-3, -1, 0, 1, 3], [-4, -2, 0, 2, 4], [1, 1, 1, 1, 1]⟩ : Knots ℚ).xs.length) :=
  ⟨⟨by decide, by decide,
      by norm_num [construct22, performBC, takecareRestBatch,
        takecareRestRow, getk,
        show ((some "anti" : Option String) = none) ↔ False by decide,
        show (("anti" : String) = "linear") ↔ False by decide,
        show ((none : Option String) = some "linear") ↔ False by decide,
        show (("anti" : String) = "periodic") ↔ False by decide,
        show ((none : Option String) = some "periodic") ↔ False by decide,
        show ((none : Option String) = some "anti") ↔ False by decide,
        show ((none : Option String) = some "anti-periodic") ↔ False by decide,
        Except.map]⟩,
    c10_construction_lengths [0, 1, 3] [0, 2, 4] [1, 1, 1] (some "anti") none
      (by decide) (by decide) _
      (by norm_num [construct22, performBC, takecareRestBatch,
        takecareRestRow, getk,
        show ((some "anti" : Option String) = none) ↔ False by decide,
        show (("anti" : String) = "linear") ↔ False by decide,
        show ((none : Option String) = some "linear") ↔ False by decide,
        show (("anti" : String) = "periodic") ↔ False by decide,
        show ((none : Option String) = some "periodic") ↔ False by decide,
        show ((none : Option String) = some "anti") ↔ False by decide,
        show ((none : Option String) = some "anti-periodic") ↔ False by decide,
        Except.map])⟩

theorem forward22_def (k : Knots K) (x : K) :
    forward22 k x
      = pade22_g0 (getk k.xs (segmentIndex k.xs (k.xs.length - 1) x))
          (getk k.xs (segmentIndex k.xs (k.xs.length - 1) x + 1))
          (getk k.ys (segmentIndex k.xs (k.xs.length - 1) x))
          (getk k.ys (segmentIndex k.xs (k.xs.length - 1) x + 1))
          (getk k.ds (segmentIndex k.xs (k.xs.length - 1) x))
          (getk k.ds (segmentIndex k.xs (k.xs.length - 1) x + 1)) x := rfl

theorem forward11_def (k : Knots K) (x : K) :
    forward11 k x
      = pade11_g0 (getk k.xs (segmentIndex k.xs (k.xs.length - 1) x))
          (getk k.xs (segmentIndex k.xs (k.xs.length - 1) x + 1))
          (getk k.ys (segmentIndex k.xs (k.xs.length - 1) x))
          (getk k.ys (segmentIndex k.xs (k.xs.length - 1) x + 1))
          (getk k.ds (segmentIndex k.xs (k.xs.length - 1) x)) x := rfl

theorem backward22_def (k : Knots ℝ) (y : ℝ) :
    backward22 k y
      = pade22_inv (getk k.xs (segmentIndex k.ys (k.xs.length - 1) y))
          (getk k.xs (segmentIndex k.ys (k.xs.length - 1) y + 1))
          (getk k.ys (segmentIndex k.ys (k.xs.length - 1) y))
          (getk k.ys (segmentIndex k.ys (k.xs.length - 1) y + 1))
          (getk k.ds (segmentIndex k.ys (k.xs.length - 1) y))
          (getk k.ds (segmentIndex k.ys (k.xs.length - 1) y + 1)) y := rfl

theorem backward11_def (k : Knots K) (y : K) :
    backward11 k y
      = pade11_inv (getk k.xs (segmentIndex k.ys (k.xs.length - 1) y))
          (getk k.xs (segmentIndex k.ys (k.xs.length - 1) y + 1))
          (getk k.ys (segmentIndex k.ys (k.xs.length - 1) y))
          (getk k.ys (segmentIndex k.ys (k.xs.length - 1) y + 1))
          (getk k.ds (segmentIndex k.ys (k.xs.length - 1) y)) y := rfl

theorem segmentIndex_below (xs : List K) (segm : ℕ) (v : K)
    (hne : xs ≠ []) (h : v ≤ getk xs 0) (hs : 1 ≤ segm) :
    segmentIndex xs segm v = 0 := by
  rw [segmentIndex, searchsorted_eq_zero xs v hne h]
  omega

theorem segmentIndex_above (xs : List K) (segm : ℕ) (v : K)
    (h : ∀ j, j < xs.length → getk xs j < v) (hs : segm ≤ xs.length) :
    segmentIndex xs segm v = segm - 1 := by
  rw [segmentIndex, searchsorted_eq_length xs v h]
  omega

theorem all_lt_of_sorted_last_lt (xs : List K) (v : K) (hs : sortedLT xs)
    (hne : xs ≠ []) (h : getk xs (xs.length - 1) < v) :
    ∀ j, j < xs.length → getk xs j < v := by
  intro j hj
  have hlen : 0 < xs.length := List.length_pos.2 hne
  rcases Nat.eq_or_lt_of_le (show j ≤ xs.length - 1 by omega) with he | hl
  · rw [he]; exact h
  · exact lt_trans (hs j (xs.length - 1) hl (by omega)) h

theorem segmentIndex_at_knot (xs : List K) (i : ℕ) (hs : sortedLT xs)
    (hn : 2 ≤ xs.length) (hi : i < xs.length) (hp : 1 ≤ i) :
    segmentIndex xs (xs.length - 1) (getk xs i) = i - 1 := by
  rw [segmentIndex, searchsorted_getk xs i hs hi]
  omega

/-- **C6.** The raw sorted-search index is clamped to `[1, segm_len]` and
decremented, so a query strictly below the whole (augmented) knot range is
evaluated with the first segment's formula and a query strictly above it with
the last segment's formula, in forward and backward evaluation of both
interpolants. -/
theorem c6_clamped_extrapolation (k : Knots ℝ) (xlo xhi ylo yhi : ℝ)
    (hsx : sortedLT k.xs) (hsy : sortedLT k.ys)
    (hyl : k.ys.length = k.xs.length) (hn : 2 ≤ k.xs.length)
    (hxlo : xlo < getk k.xs 0)
    (hxhi : getk k.xs (k.xs.length - 1) < xhi)
    (hylo : ylo < getk k.ys 0)
    (hyhi : getk k.ys (k.ys.length - 1) < yhi) :
    segmentIndex k.xs (k.xs.length - 1) xlo = 0 ∧
    segmentIndex k.xs (k.xs.length - 1) xhi = k.xs.length - 2 ∧
    forward22 k xlo = pade22_g0 (getk k.xs 0) (getk k.xs 1) (getk k.ys 0)
      (getk k.ys 1) (getk k.ds 0) (getk k.ds 1) xlo ∧
    forward11 k xlo = pade11_g0 (getk k.xs 0) (getk k.xs 1) (getk k.ys 0)
      (getk k.ys 1) (getk k.ds 0) xlo ∧
    forward22 k xhi = pade22_g0 (getk k.xs (k.xs.length - 2))
      (getk k.xs (k.xs.length - 1)) (getk k.ys (k.xs.length - 2))
      (getk k.ys (k.xs.length - 1)) (getk k.ds (k.xs.length - 2))
      (getk k.ds (k.xs.length - 1)) xhi ∧
    forward11 k xhi = pade11_g0 (getk k.xs (k.xs.length - 2))
      (getk k.xs (k.xs.length - 1)) (getk k.ys (k.xs.length - 2))
      (getk k.ys (k.xs.length - 1)) (getk k.ds (k.xs.length - 2)) xhi ∧
    backward22 k ylo = pade22_inv (getk k.xs 0) (getk k.xs 1) (getk k.ys 0)
      (getk k.ys 1) (getk k.ds 0) (getk k.ds 1) ylo ∧
    backward11 k ylo = pade11_inv (getk k.xs 0) (getk k.xs 1) (getk k.ys 0)
      (getk k.ys 1) (getk k.ds 0) ylo ∧
    backward22 k yhi = pade22_inv (getk k.xs (k.xs.length - 2))
      (getk k.xs (k.xs.length - 1)) (getk k.ys (k.xs.length - 2))
      (getk k.ys (k.xs.length - 1)) (getk k.ds (k.xs.length - 2))
      (getk k.ds (k.xs.length - 1)) yhi ∧
    backward11 k yhi = pade11_inv (getk k.xs (k.xs.length - 2))
      (getk k.xs (k.xs.length - 1)) (getk k.ys (k.xs.length - 2))
      (getk k.ys (k.xs.length - 1)) (getk k.ds (k.xs.length - 2)) yhi := by
  have hxne : k.xs ≠ [] := by
    intro hcon
    rw [hcon] at hn
    simp at hn
  have hyne : k.ys ≠ [] := by
    intro hcon
    rw [hcon] at hyl
    simp at hyl
    omega
  have hlo : segmentIndex k.xs (k.xs.length - 1) xlo = 0 :=
    segmentIndex_below k.xs (k.xs.length - 1) xlo hxne hxlo.le (by omega)
  have hhi : segmentIndex k.xs (k.xs.length - 1) xhi = k.xs.length - 2 := by
    have := segmentIndex_above k.xs (k.xs.length - 1) xhi
      (all_lt_of_sorted_last_lt k.xs xhi hsx hxne hxhi) (by omega)
    omega
  have hylo2 : segmentIndex k.ys (k.xs.length - 1) ylo = 0 :=
    segmentIndex_below k.ys (k.xs.length - 1) ylo hyne hylo.le (by omega)
  have hyhi2 : segmentIndex k.ys (k.xs.length - 1) yhi = k.xs.length - 2 := by
    have := segmentIndex_above k.ys (k.xs.length - 1) yhi
      (all_lt_of_sorted_last_lt k.ys yhi hsy hyne hyhi) (by omega)
    omega
  refine ⟨hlo, hhi, ?_, ?_, ?_, ?_, ?_, ?_, ?_, ?_⟩
  · rw [forward22_def, hlo]
  · rw [forward11_def, hlo]
  · rw [forward22_def, hhi]
    have : k.xs.length - 2 + 1 = k.xs.length - 1 := by omega
    rw [this]
  · rw [forward11_def, hhi]
    have : k.xs.length - 2 + 1 = k.xs.length - 1 := by omega
    rw [this]
  · rw [backward22_def, hylo2]
  · rw [backward11_def, hylo2]
  · rw [backward22_def, hyhi2]
    have : k.xs.length - 2 + 1 = k.xs.length - 1 := by omega
    rw [this]
  · rw [backward11_def, hyhi2]
    have : k.xs.length - 2 + 1 = k.xs.length - 1 := by omega
    rw [this]

/-- **C6, witness.** -/
theorem c6_clamped_extrapolation_witness :
    (sortedLT ([0, 1] : List ℝ) ∧ (2:ℝ) < 3 ∧ (-1:ℝ) < 0) ∧
    (segmentIndex ([0, 1] : List ℝ) 1 (-1) = 0 ∧
      segmentIndex ([0, 1] : List ℝ) 1 3 = 0 ∧
      forward22 (⟨[0, 1], [0, 1], [1, 1]⟩ : Knots ℝ) (-1)
        = pade22_g0 (getk ([0, 1] : List ℝ) 0) (getk ([0, 1] : List ℝ) 1)
          (getk ([0, 1] : List ℝ) 0) (getk ([0, 1] : List ℝ) 1)
          (getk ([1, 1] : List ℝ) 0) (getk ([1, 1] : List ℝ) 1) (-1) ∧
      forward11 (⟨[0, 1], [0, 1], [1, 1]⟩ : Knots ℝ) (-1)
        = pade11_g0 (getk ([0, 1] : List ℝ) 0) (getk ([0, 1] : List ℝ) 1)
          (getk ([0, 1] : List ℝ) 0) (getk ([0, 1] : List ℝ) 1)
          (getk ([1, 1] : List ℝ) 0) (-1) ∧
      forward22 (⟨[0, 1], [0, 1], [1, 1]⟩ : Knots ℝ) 3
        = pade22_g0 (getk ([0, 1] : List ℝ) 0) (getk ([0, 1] : List ℝ) 1)
          (getk ([0, 1] : List ℝ) 0) (getk ([0, 1] : List ℝ) 1)
          (getk ([1, 1] : List ℝ) 0) (getk ([1, 1] : List ℝ) 1) 3 ∧
      forward11 (⟨[0, 1], [0, 1], [1, 1]⟩ : Knots ℝ) 3
        = pade11_g0 (getk ([0, 1] : List ℝ) 0) (getk ([0, 1] : List ℝ) 1)
          (getk ([0, 1] : List ℝ) 0) (getk ([0, 1] : List ℝ) 1)
          (getk ([1, 1] : List ℝ) 0) 3 ∧
      backward22 (⟨[0, 1], [0, 1], [1, 1]⟩ : Knots ℝ) (-1)
        = pade22_inv (getk ([0, 1] : List ℝ) 0) (getk ([0, 1] : List ℝ) 1)
          (getk ([0, 1] : List ℝ) 0) (getk ([0, 1] : List ℝ) 1)
          (getk ([1, 1] : List ℝ) 0) (getk ([1, 1] : List ℝ) 1) (-1) ∧
      backward11 (⟨[0, 1], [0, 1], [1, 1]⟩ : Knots ℝ) (-1)
        = pade11_inv (getk ([0, 1] : List ℝ) 0) (getk ([0, 1] : List ℝ) 1)
          (getk ([0, 1] : List ℝ) 0) (getk ([0, 1] : List ℝ) 1)
          (getk ([1, 1] : List ℝ) 0) (-1) ∧
      backward22 (⟨[0, 1], [0, 1], [1, 1]⟩ : Knots ℝ) 3
        = pade22_inv (getk ([0, 1] : List ℝ) 0) (getk ([0, 1] : List ℝ) 1)
          (getk ([0, 1] : List ℝ) 0) (getk ([0, 1] : List ℝ) 1)
          (getk ([1, 1] : List ℝ) 0) (getk ([1, 1] : List ℝ) 1) 3 ∧
      backward11 (⟨[0, 1], [0, 1], [1, 1]⟩ : Knots ℝ) 3
        = pade11_inv (getk ([0, 1] : List ℝ) 0) (getk ([0, 1] : List ℝ) 1)
          (getk ([0, 1] : List ℝ) 0) (getk ([0, 1] : List ℝ) 1)
          (getk ([1, 1] : List ℝ) 0) 3) := by
  have hs : sortedLT ([0, 1] : List ℝ) := by
    intro i j hij hj
    simp only [List.length_cons, List.length_nil] at hj
    interval_cases j <;> interval_cases i <;> norm_num [getk]
  refine ⟨⟨hs, by norm_num, by norm_num⟩, ?_⟩
  have h := c6_clamped_extrapolation (⟨[0, 1], [0, 1], [1, 1]⟩ : Knots ℝ)
    (-1) 3 (-1) 3 hs hs (by simp) (by simp)
    (by norm_num [getk]) (by norm_num [getk])
    (by norm_num [getk]) (by norm_num [getk])
  simpa using h

/-- **C7.** For every valid knot set, forward evaluation at `knots_x[i]`
returns exactly `knots_y[i]` for both interpolants: the search index at a
knot is its own index, the clamp-and-decrement selects an adjacent segment,
and the segment formula at `theta = 0` or `theta = 1` reproduces the knot. -/
theorem c7_knot_interpolation (k : Knots ℝ) (i : ℕ)
    (hsx : sortedLT k.xs) (hsy : sortedLT k.ys) (hd : allPos k.ds)
    (hyl : k.ys.length = k.xs.length) (hdl : k.ds.length = k.xs.length)
    (hn : 2 ≤ k.xs.length) (hi : i < k.xs.length) :
    forward22 k (getk k.xs i) = getk k.ys i ∧
    forward11 k (getk k.xs i) = getk k.ys i := by
  have hxne : k.xs ≠ [] := by
    intro hcon
    rw [hcon] at hn
    simp at hn
  rcases Nat.eq_zero_or_pos i with hz | hp
  · subst hz
    have hseg : segmentIndex k.xs (k.xs.length - 1) (getk k.xs 0) = 0 :=
      segmentIndex_below k.xs (k.xs.length - 1) (getk k.xs 0) hxne le_rfl
        (by omega)
    rw [forward22_def, forward11_def, hseg]
    exact ⟨pade22_g0_left _ _ _ _ _ _, pade11_g0_left _ _ _ _ _⟩
  · have hseg : segmentIndex k.xs (k.xs.length - 1) (getk k.xs i) = i - 1 :=
      segmentIndex_at_knot k.xs i hsx hn hi hp
    have hi1 : i - 1 + 1 = i := by omega
    have hxlt : getk k.xs (i - 1) < getk k.xs i := hsx (i - 1) i (by omega) hi
    have hylt : getk k.ys (i - 1) < getk k.ys i := hsy (i - 1) i (by omega)
      (by omega)
    have hxd : getk k.xs i - getk k.xs (i - 1) ≠ 0 := by linarith
    have hm : (getk k.ys i - getk k.ys (i - 1))
        / (getk k.xs i - getk k.xs (i - 1)) ≠ 0 :=
      div_ne_zero (by linarith) hxd
    have hdne : getk k.ds (i - 1) ≠ 0 := by
      have := hd (i - 1) (by omega)
      linarith
    rw [forward22_def, forward11_def, hseg, hi1]
    exact ⟨pade22_g0_right _ _ _ _ _ _ hxd hm, pade11_g0_right _ _ _ _ _ hxd hdne⟩

/-- **C7, witness.** -/
theorem c7_knot_interpolation_witness :
    (sortedLT ([0, 1] : List ℝ) ∧ allPos ([1, 1] : List ℝ)) ∧
    (forward22 (⟨[0, 1], [0, 1], [1, 1]⟩ : Knots ℝ) (getk ([0, 1] : List ℝ) 1)
        = getk ([0, 1] : List ℝ) 1 ∧
      forward11 (⟨[0, 1], [0, 1], [1, 1]⟩ : Knots ℝ) (getk ([0, 1] : List ℝ) 1)
        = getk ([0, 1] : List ℝ) 1) := by
  have hs : sortedLT ([0, 1] : List ℝ) := by
    intro i j hij hj
    simp only [List.length_cons, List.length_nil] at hj
    interval_cases j <;> interval_cases i <;> norm_num [getk]
  have hp : allPos ([1, 1] : List ℝ) := by
    intro i hi
    simp only [List.length_cons, List.length_nil] at hi
    interval_cases i <;> norm_num [getk]
  exact ⟨⟨hs, hp⟩,
    c7_knot_interpolation (⟨[0, 1], [0, 1], [1, 1]⟩ : Knots ℝ) 1 hs hs hp
      (by simp) (by simp) (by simp) (by simp)⟩

/-- Normalized output position `eta` as a function of the normalized input
position `theta` on one Pade22 segment. -/
noncomputable def etaOf (m d0 d1 theta : ℝ) : ℝ :=
  theta * (m * theta + d0 * (1 - theta))
    / (m + (d1 + d0 - 2 * m) * theta * (1 - theta))

/-- Normalized output position `eta` as a function of `theta` on one Pade11
segment. -/
noncomputable def eta11Of (m d0 theta : ℝ) : ℝ :=
  d0 * theta / (m + (d0 - m) * theta)

theorem segment22_eta (x0 x1 y0 y1 d0 d1 x : ℝ) :
    pade22_g0 x0 x1 y0 y1 d0 d1 x
      = y0 + (y1 - y0)
          * etaOf ((y1 - y0) / (x1 - x0)) d0 d1 ((x - x0) / (x1 - x0)) := by
  rw [pade22_g0, etaOf]
  ring

theorem segment11_eta (x0 x1 y0 y1 d0 x : ℝ) :
    pade11_g0 x0 x1 y0 y1 d0 x
      = y0 + (y1 - y0)
          * eta11Of ((y1 - y0) / (x1 - x0)) d0 ((x - x0) / (x1 - x0)) := by
  rw [pade11_g0, eta11Of]
  ring

theorem pade22_inv_def (x0 x1 y0 y1 d0 d1 y : ℝ) :
    pade22_inv x0 x1 y0 y1 d0 d1 y
      = x0 + (x1 - x0) * calcTheta22 ((y1 - y0) / (x1 - x0)) d0 d1
          ((y - y0) / (y1 - y0)) := rfl

theorem pade22_den_pos (m d0 d1 theta : ℝ) (hm : 0 < m) (h0 : 0 < d0)
    (h1 : 0 < d1) (ht0 : 0 ≤ theta) (ht1 : theta ≤ 1) :
    0 < m + (d1 + d0 - 2 * m) * theta * (1 - theta) := by
  nlinarith [sq_nonneg (1 - 2 * theta),
    mul_nonneg (mul_nonneg h0.le ht0) (sub_nonneg.2 ht1),
    mul_nonneg (mul_nonneg h1.le ht0) (sub_nonneg.2 ht1)]

theorem pade11_den_pos (m d0 theta : ℝ) (hm : 0 < m) (h0 : 0 < d0)
    (ht0 : 0 ≤ theta) (ht1 : theta ≤ 1) :
    0 < m + (d0 - m) * theta := by
  rcases eq_or_lt_of_le ht0 with hz | hp
  · rw [← hz]
    simpa using hm
  · nlinarith [mul_pos h0 hp, mul_nonneg hm.le (sub_nonneg.2 ht1)]

theorem etaOf_zero (m d0 d1 : ℝ) : etaOf m d0 d1 0 = 0 := by
  simp [etaOf]

theorem etaOf_one (m d0 d1 : ℝ) (hm : m ≠ 0) : etaOf m d0 d1 1 = 1 := by
  rw [etaOf]
  simp [hm]

theorem eta11Of_zero (m d0 : ℝ) : eta11Of m d0 0 = 0 := by
  simp [eta11Of]

theorem eta11Of_one (m d0 : ℝ) (hd : d0 ≠ 0) : eta11Of m d0 1 = 1 := by
  rw [eta11Of]
  rw [show m + (d0 - m) * 1 = d0 by ring]
  simp [hd]

theorem etaOf_pos (m d0 d1 theta : ℝ) (hm : 0 < m) (h0 : 0 < d0)
    (h1 : 0 < d1) (ht0 : 0 < theta) (ht1 : theta ≤ 1) :
    0 < etaOf m d0 d1 theta := by
  have hD := pade22_den_pos m d0 d1 theta hm h0 h1 ht0.le ht1
  have hinner : 0 < m * theta + d0 * (1 - theta) := by
    nlinarith [mul_pos hm ht0, mul_nonneg h0.le (sub_nonneg.2 ht1)]
  exact div_pos (mul_pos ht0 hinner) hD

theorem etaOf_lt_one (m d0 d1 theta : ℝ) (hm : 0 < m) (h0 : 0 < d0)
    (h1 : 0 < d1) (ht0 : 0 ≤ theta) (ht1 : theta < 1) :
    etaOf m d0 d1 theta < 1 := by
  have hD := pade22_den_pos m d0 d1 theta hm h0 h1 ht0 ht1.le
  rw [etaOf, div_lt_one hD]
  nlinarith [mul_pos hm (mul_pos (sub_pos.2 ht1) (sub_pos.2 ht1)),
    mul_nonneg (mul_nonneg h1.le ht0) (sub_pos.2 ht1).le]

theorem eta11Of_pos (m d0 theta : ℝ) (hm : 0 < m) (h0 : 0 < d0)
    (ht0 : 0 < theta) (ht1 : theta ≤ 1) :
    0 < eta11Of m d0 theta := by
  have hD := pade11_den_pos m d0 theta hm h0 ht0.le ht1
  exact div_pos (mul_pos h0 ht0) hD

theorem eta11Of_lt_one (m d0 theta : ℝ) (hm : 0 < m) (h0 : 0 < d0)
    (ht0 : 0 ≤ theta) (ht1 : theta < 1) :
    eta11Of m d0 theta < 1 := by
  have hD := pade11_den_pos m d0 theta hm h0 ht0 ht1.le
  rw [eta11Of, div_lt_one hD]
  nlinarith [mul_pos hm (sub_pos.2 ht1)]

theorem pade22_root (m d0 d1 theta : ℝ)
    (hD : m + (d1 + d0 - 2 * m) * theta * (1 - theta) ≠ 0) :
    ((2 * m - d1 - d0) * etaOf m d0 d1 theta + d0 - m) * theta ^ 2
      + (-((2 * m - d1 - d0) * etaOf m d0 d1 theta + d0 - m) - m) * theta
      + m * etaOf m d0 d1 theta = 0 := by
  rw [etaOf]
  field_simp
  ring

theorem pade22_sign (m d0 d1 theta : ℝ) (hm : 0 < m) (h0 : 0 < d0)
    (h1 : 0 < d1) (ht0 : 0 ≤ theta) (ht1 : theta ≤ 1) :
    2 * ((2 * m - d1 - d0) * etaOf m d0 d1 theta + d0 - m) * theta
      + (-((2 * m - d1 - d0) * etaOf m d0 d1 theta + d0 - m) - m) ≤ 0 := by
  have hD := pade22_den_pos m d0 d1 theta hm h0 h1 ht0 ht1
  have ha2D : ((2 * m - d1 - d0) * etaOf m d0 d1 theta + d0 - m)
      * (m + (d1 + d0 - 2 * m) * theta * (1 - theta))
      = m * (d0 - m - (d1 + d0 - 2 * m) * theta) := by
    rw [etaOf]
    field_simp
    ring
  have key : (2 * theta - 1) * (m * (d0 - m - (d1 + d0 - 2 * m) * theta))
      ≤ m * (m + (d1 + d0 - 2 * m) * theta * (1 - theta)) := by
    nlinarith [mul_nonneg (mul_nonneg hm.le h0.le) (sq_nonneg (1 - theta)),
      mul_nonneg (mul_nonneg hm.le h1.le) (sq_nonneg theta),
      mul_nonneg (mul_nonneg (mul_nonneg hm.le hm.le) ht0) (sub_nonneg.2 ht1)]
  have h3 : ((2 * theta - 1)
        * ((2 * m - d1 - d0) * etaOf m d0 d1 theta + d0 - m))
      * (m + (d1 + d0 - 2 * m) * theta * (1 - theta))
      ≤ m * (m + (d1 + d0 - 2 * m) * theta * (1 - theta)) := by
    have h4 : ((2 * theta - 1)
          * ((2 * m - d1 - d0) * etaOf m d0 d1 theta + d0 - m))
        * (m + (d1 + d0 - 2 * m) * theta * (1 - theta))
        = (2 * theta - 1) * (m * (d0 - m - (d1 + d0 - 2 * m) * theta)) := by
      rw [← ha2D]
      ring
    rw [h4]
    exact key
  have key2 : (2 * theta - 1)
      * ((2 * m - d1 - d0) * etaOf m d0 d1 theta + d0 - m) ≤ m :=
    le_of_mul_le_mul_right h3 hD
  nlinarith [key2]

theorem calcTheta22_etaOf (m d0 d1 theta : ℝ) (hm : 0 < m) (h0 : 0 < d0)
    (h1 : 0 < d1) (ht0 : 0 ≤ theta) (ht1 : theta ≤ 1) :
    calcTheta22 m d0 d1 (etaOf m d0 d1 theta) = theta := by
  have hD := pade22_den_pos m d0 d1 theta hm h0 h1 ht0 ht1
  have hroot := pade22_root m d0 d1 theta (ne_of_gt hD)
  have hsign := pade22_sign m d0 d1 theta hm h0 h1 ht0 ht1
  simp only [calcTheta22]
  by_cases hz : (2 * m - d1 - d0) * etaOf m d0 d1 theta + d0 - m = 0
  · rw [if_pos hz]
    rw [hz] at hroot ⊢
    have hme : m * etaOf m d0 d1 theta = m * theta := by linarith
    rw [hme]
    rw [show -0 - m = -m by ring, div_eq_iff (by simpa using hm.ne')]
    ring
  · rw [if_neg hz]
    have hdisc : (-((2 * m - d1 - d0) * etaOf m d0 d1 theta + d0 - m) - m) ^ 2
        - 4 * (m * etaOf m d0 d1 theta)
          * ((2 * m - d1 - d0) * etaOf m d0 d1 theta + d0 - m)
        = (2 * ((2 * m - d1 - d0) * etaOf m d0 d1 theta + d0 - m) * theta
            + (-((2 * m - d1 - d0) * etaOf m d0 d1 theta + d0 - m) - m)) ^ 2 := by
      linear_combination
        (-4 * ((2 * m - d1 - d0) * etaOf m d0 d1 theta + d0 - m)) * hroot
    rw [hdisc, Real.sqrt_sq_eq_abs, abs_of_nonpos hsign]
    rw [div_eq_iff (by intro hcon; exact hz (by linarith [hcon]))]
    ring

theorem pade11_theta (m d0 theta : ℝ) (hm : 0 < m) (h0 : 0 < d0)
    (ht0 : 0 ≤ theta) (ht1 : theta ≤ 1) :
    -eta11Of m d0 theta * m / (eta11Of m d0 theta * (d0 - m) - d0) = theta := by
  have hD := pade11_den_pos m d0 theta hm h0 ht0 ht1
  have hden : eta11Of m d0 theta * (d0 - m) - d0
      = -(d0 * m) / (m + (d0 - m) * theta) := by
    rw [eta11Of]
    field_simp
    ring
  rw [hden, eta11Of]
  have hne : -(d0 * m) / (m + (d0 - m) * theta) ≠ 0 :=
    div_ne_zero (neg_ne_zero.2 (by positivity)) (ne_of_gt hD)
  rw [div_eq_iff hne]
  field_simp
  exact Or.inl (by ring)

theorem pade11_inv_def (x0 x1 y0 y1 d0 y : ℝ) :
    pade11_inv x0 x1 y0 y1 d0 y
      = x0 + (x1 - x0) * (-((y - y0) / (y1 - y0)) * ((y1 - y0) / (x1 - x0))
          / (((y - y0) / (y1 - y0)) * (d0 - (y1 - y0) / (x1 - x0)) - d0)) := rfl

theorem roundtrip22 (k : Knots ℝ) (x : ℝ)
    (hsx : sortedLT k.xs) (hsy : sortedLT k.ys) (hd : allPos k.ds)
    (hyl : k.ys.length = k.xs.length) (hdl : k.ds.length = k.xs.length)
    (hn : 2 ≤ k.xs.length)
    (hx0 : getk k.xs 0 ≤ x) (hx1 : x ≤ getk k.xs (k.xs.length - 1)) :
    backward22 k (forward22 k x) = x := by
  obtain ⟨hiu, hxl, hxr, hstrict⟩ := segmentIndex_spec k.xs x hsx hn hx0 hx1
  set i := segmentIndex k.xs (k.xs.length - 1) x with hi
  have hx01 : getk k.xs i < getk k.xs (i + 1) := hsx i (i + 1) (by omega) hiu
  have hy01 : getk k.ys i < getk k.ys (i + 1) :=
    hsy i (i + 1) (by omega) (by omega)
  have hd0 : 0 < getk k.ds i := hd i (by omega)
  have hd1 : 0 < getk k.ds (i + 1) := hd (i + 1) (by omega)
  have hmpos : 0 < (getk k.ys (i + 1) - getk k.ys i)
      / (getk k.xs (i + 1) - getk k.xs i) :=
    div_pos (by linarith) (by linarith)
  have ht0 : 0 ≤ (x - getk k.xs i) / (getk k.xs (i + 1) - getk k.xs i) :=
    div_nonneg (by linarith) (by linarith)
  have ht1 : (x - getk k.xs i) / (getk k.xs (i + 1) - getk k.xs i) ≤ 1 := by
    rw [div_le_one (by linarith)]
    linarith
  have hfwd : forward22 k x
      = getk k.ys i + (getk k.ys (i + 1) - getk k.ys i)
        * etaOf ((getk k.ys (i + 1) - getk k.ys i)
              / (getk k.xs (i + 1) - getk k.xs i))
            (getk k.ds i) (getk k.ds (i + 1))
            ((x - getk k.xs i) / (getk k.xs (i + 1) - getk k.xs i)) := by
    rw [forward22_def, ← hi]
    exact segment22_eta _ _ _ _ _ _ _
  have hsame : segmentIndex k.ys (k.xs.length - 1) (forward22 k x) = i := by
    rcases eq_or_lt_of_le hxr with hxeq | hxlt
    · have hth : (x - getk k.xs i) / (getk k.xs (i + 1) - getk k.xs i) = 1 := by
        rw [hxeq]
        exact div_self (by linarith)
      have hy : forward22 k x = getk k.ys (i + 1) := by
        rw [hfwd, hth, etaOf_one _ _ _ (ne_of_gt hmpos)]
        ring
      rw [hy, segmentIndex, searchsorted_getk k.ys (i + 1) hsy (by omega)]
      omega
    · rcases eq_or_lt_of_le hxl with hxeq0 | hxgt
      · have hi0 : i = 0 := by
          rcases hstrict with h | h
          · exact h
          · rw [← hxeq0] at h
            exact absurd h (lt_irrefl _)
        have hth : (x - getk k.xs i) / (getk k.xs (i + 1) - getk k.xs i) = 0 := by
          rw [← hxeq0, sub_self, zero_div]
        have hy : forward22 k x = getk k.ys i := by
          rw [hfwd, hth, etaOf_zero]
          ring
        rw [hy, hi0, segmentIndex, searchsorted_getk k.ys 0 hsy (by omega)]
        omega
      · have htpos : 0 < (x - getk k.xs i)
            / (getk k.xs (i + 1) - getk k.xs i) :=
          div_pos (by linarith) (by linarith)
        have htlt : (x - getk k.xs i)
            / (getk k.xs (i + 1) - getk k.xs i) < 1 := by
          rw [div_lt_one (by linarith)]
          linarith
        have hylow : getk k.ys i < forward22 k x := by
          rw [hfwd]
          linarith [mul_pos (sub_pos.2 hy01)
            (etaOf_pos _ _ _ _ hmpos hd0 hd1 htpos ht1)]
        have hyhigh : forward22 k x ≤ getk k.ys (i + 1) := by
          rw [hfwd]
          have := mul_lt_mul_of_pos_left
            (etaOf_lt_one _ _ _ _ hmpos hd0 hd1 ht0 htlt) (sub_pos.2 hy01)
          linarith
        rw [segmentIndex, searchsorted_eq_of_between k.ys (forward22 k x) i hsy
          (by omega) hylow hyhigh]
        omega
  rw [backward22_def, hsame, hfwd, pade22_inv_def]
  rw [add_sub_cancel_left, mul_div_cancel_left₀ _ (sub_ne_zero.2 hy01.ne')]
  rw [calcTheta22_etaOf _ _ _ _ hmpos hd0 hd1 ht0 ht1]
  rw [mul_comm (getk k.xs (i + 1) - getk k.xs i),
    div_mul_cancel₀ _ (sub_ne_zero.2 hx01.ne')]
  ring

theorem roundtrip11 (k : Knots ℝ) (x : ℝ)
    (hsx : sortedLT k.xs) (hsy : sortedLT k.ys) (hd : allPos k.ds)
    (hyl : k.ys.length = k.xs.length) (hdl : k.ds.length = k.xs.length)
    (hn : 2 ≤ k.xs.length)
    (hx0 : getk k.xs 0 ≤ x) (hx1 : x ≤ getk k.xs (k.xs.length - 1)) :
    backward11 k (forward11 k x) = x := by
  obtain ⟨hiu, hxl, hxr, hstrict⟩ := segmentIndex_spec k.xs x hsx hn hx0 hx1
  set i := segmentIndex k.xs (k.xs.length - 1) x with hi
  have hx01 : getk k.xs i < getk k.xs (i + 1) := hsx i (i + 1) (by omega) hiu
  have hy01 : getk k.ys i < getk k.ys (i + 1) :=
    hsy i (i + 1) (by omega) (by omega)
  have hd0 : 0 < getk k.ds i := hd i (by omega)
  have hmpos : 0 < (getk k.ys (i + 1) - getk k.ys i)
      / (getk k.xs (i + 1) - getk k.xs i) :=
    div_pos (by linarith) (by linarith)
  have ht0 : 0 ≤ (x - getk k.xs i) / (getk k.xs (i + 1) - getk k.xs i) :=
    div_nonneg (by linarith) (by linarith)
  have ht1 : (x - getk k.xs i) / (getk k.xs (i + 1) - getk k.xs i) ≤ 1 := by
    rw [div_le_one (by linarith)]
    linarith
  have hfwd : forward11 k x
      = getk k.ys i + (getk k.ys (i + 1) - getk k.ys i)
        * eta11Of ((getk k.ys (i + 1) - getk k.ys i)
              / (getk k.xs (i + 1) - getk k.xs i))
            (getk k.ds i)
            ((x - getk k.xs i) / (getk k.xs (i + 1) - getk k.xs i)) := by
    rw [forward11_def, ← hi]
    exact segment11_eta _ _ _ _ _ _
  have hsame : segmentIndex k.ys (k.xs.length - 1) (forward11 k x) = i := by
    rcases eq_or_lt_of_le hxr with hxeq | hxlt
    · have hth : (x - getk k.xs i) / (getk k.xs (i + 1) - getk k.xs i) = 1 := by
        rw [hxeq]
        exact div_self (by linarith)
      have hy : forward11 k x = getk k.ys (i + 1) := by
        rw [hfwd, hth, eta11Of_one _ _ hd0.ne']
        ring
      rw [hy, segmentIndex, searchsorted_getk k.ys (i + 1) hsy (by omega)]
      omega
    · rcases eq_or_lt_of_le hxl with hxeq0 | hxgt
      · have hi0 : i = 0 := by
          rcases hstrict with h | h
          · exact h
          · rw [← hxeq0] at h
            exact absurd h (lt_irrefl _)
        have hth : (x - getk k.xs i) / (getk k.xs (i + 1) - getk k.xs i) = 0 := by
          rw [← hxeq0, sub_self, zero_div]
        have hy : forward11 k x = getk k.ys i := by
          rw [hfwd, hth, eta11Of_zero]
          ring
        rw [hy, hi0, segmentIndex, searchsorted_getk k.ys 0 hsy (by omega)]
        omega
      · have htpos : 0 < (x - getk k.xs i)
            / (getk k.xs (i + 1) - getk k.xs i) :=
          div_pos (by linarith) (by linarith)
        have htlt : (x - getk k.xs i)
            / (getk k.xs (i + 1) - getk k.xs i) < 1 := by
          rw [div_lt_one (by linarith)]
          linarith
        have hylow : getk k.ys i < forward11 k x := by
          rw [hfwd]
          linarith [mul_pos (sub_pos.2 hy01)
            (eta11Of_pos _ _ _ hmpos hd0 htpos ht1)]
        have hyhigh : forward11 k x ≤ getk k.ys (i + 1) := by
          rw [hfwd]
          have := mul_lt_mul_of_pos_left
            (eta11Of_lt_one _ _ _ hmpos hd0 ht0 htlt) (sub_pos.2 hy01)
          linarith
        rw [segmentIndex, searchsorted_eq_of_between k.ys (forward11 k x) i hsy
          (by omega) hylow hyhigh]
        omega
  rw [backward11_def, hsame, hfwd, pade11_inv_def]
  rw [add_sub_cancel_left, mul_div_cancel_left₀ _ (sub_ne_zero.2 hy01.ne')]
  rw [pade11_theta _ _ _ hmpos hd0 ht0 ht1]
  rw [mul_comm (getk k.xs (i + 1) - getk k.xs i),
    div_mul_cancel₀ _ (sub_ne_zero.2 hx01.ne')]
  ring

/-- **C1.** For every valid knot set (strictly increasing `knots_x` and
`knots_y`, strictly positive `knots_d`) and every query point `x` within the
stored (possibly augmented) knot range, `backward(forward(x)) = x` exactly
(over the reals) for both `Pade22Spline` and `Pade11Spline`; in particular
the Pade22 quadratic-root selection (`theta = -a0/a1` when `a2 = 0`, else
`theta = (-a1 - sqrt(a1^2 - 4 a0 a2))/(2 a2)`) always returns the root that
inverts the forward map. -/
theorem c1_round_trip (k : Knots ℝ) (x : ℝ)
    (hsx : sortedLT k.xs) (hsy : sortedLT k.ys) (hd : allPos k.ds)
    (hyl : k.ys.length = k.xs.length) (hdl : k.ds.length = k.xs.length)
    (hn : 2 ≤ k.xs.length)
    (hx0 : getk k.xs 0 ≤ x) (hx1 : x ≤ getk k.xs (k.xs.length - 1)) :
    backward22 k (forward22 k x) = x ∧ backward11 k (forward11 k x) = x :=
  ⟨roundtrip22 k x hsx hsy hd hyl hdl hn hx0 hx1,
    roundtrip11 k x hsx hsy hd hyl hdl hn hx0 hx1⟩

/-- **C1, witness.** -/
theorem c1_round_trip_witness :
    (sortedLT ([0, 1] : List ℝ) ∧ allPos ([1, 1] : List ℝ) ∧
      getk ([0, 1] : List ℝ) 0 ≤ (1 / 2 : ℝ) ∧
      (1 / 2 : ℝ) ≤ getk ([0, 1] : List ℝ) 1) ∧
    (backward22 (⟨[0, 1], [0, 1], [1, 1]⟩ : Knots ℝ)
        (forward22 (⟨[0, 1], [0, 1], [1, 1]⟩ : Knots ℝ) (1 / 2)) = 1 / 2 ∧
      backward11 (⟨[0, 1], [0, 1], [1, 1]⟩ : Knots ℝ)
        (forward11 (⟨[0, 1], [0, 1], [1, 1]⟩ : Knots ℝ) (1 / 2)) = 1 / 2) := by
  have hs : sortedLT ([0, 1] : List ℝ) := by
    intro i j hij hj
    simp only [List.length_cons, List.length_nil] at hj
    interval_cases j <;> interval_cases i <;> norm_num [getk]
  have hp : allPos ([1, 1] : List ℝ) := by
    intro i hi
    simp only [List.length_cons, List.length_nil] at hi
    interval_cases i <;> norm_num [getk]
  refine ⟨⟨hs, hp, by norm_num [getk], by norm_num [getk]⟩, ?_⟩
  exact c1_round_trip (⟨[0, 1], [0, 1], [1, 1]⟩ : Knots ℝ) (1 / 2) hs hs hp
    (by simp) (by simp) (by simp) (by norm_num [getk]) (by norm_num [getk])

theorem getk_refl_part (l : List K) (c : K) (j : ℕ) (hj : j < l.length - 1) :
    getk ((l.drop 1).reverse.map (fun t => 2 * c - t)) j
      = 2 * c - getk l (l.length - 1 - j) := by
  have h1 : j < ((l.drop 1).reverse.map (fun t => 2 * c - t)).length := by
    simp
    omega
  rw [getk_eq_getElem _ _ h1]
  rw [List.getElem_map, List.getElem_reverse, List.getElem_drop]
  rw [getk_eq_getElem _ _ (show l.length - 1 - j < l.length by omega)]
  simp only [List.length_drop]
  have hidx : 1 + (l.length - 1 - 1 - j) = l.length - 1 - j := by omega
  simp only [hidx]

theorem getk_dup_part (l : List K) (j : ℕ) (hj : j < l.length - 1) :
    getk (l.drop 1).reverse j = getk l (l.length - 1 - j) := by
  have h1 : j < (l.drop 1).reverse.length := by
    simp
    omega
  rw [getk_eq_getElem _ _ h1]
  rw [List.getElem_reverse, List.getElem_drop]
  rw [getk_eq_getElem _ _ (show l.length - 1 - j < l.length by omega)]
  simp only [List.length_drop]
  have hidx : 1 + (l.length - 1 - 1 - j) = l.length - 1 - j := by omega
  simp only [hidx]

theorem getk_aug_low (l fid : List K) (j : ℕ) (hfid : fid.length = l.length - 1)
    (hj : j < l.length - 1) :
    getk (fid ++ l) j = getk fid j :=
  getk_append_left fid l j (by omega)

theorem getk_aug_high (l fid : List K) (j : ℕ) (hfid : fid.length = l.length - 1)
    (hj : l.length - 1 ≤ j) :
    getk (fid ++ l) j = getk l (j - (l.length - 1)) := by
  rw [getk_append_right fid l j (by omega), hfid]

theorem reflAug_length (l fid : List K) (hfid : fid.length = l.length - 1)
    (hn : 1 ≤ l.length) : (fid ++ l).length = 2 * l.length - 1 := by
  rw [List.length_append, hfid]
  omega

theorem reflAug_get (l : List K) (c : K) (j : ℕ) (hc : c = getk l 0) :
    getk ((l.drop 1).reverse.map (fun t => 2 * c - t) ++ l) j
      = if j < l.length - 1 then 2 * c - getk l (l.length - 1 - j)
        else getk l (j - (l.length - 1)) := by
  have hfid : ((l.drop 1).reverse.map (fun t => 2 * c - t)).length
      = l.length - 1 := by simp
  by_cases hj : j < l.length - 1
  · rw [if_pos hj, getk_aug_low l _ j hfid hj, getk_refl_part l c j hj]
  · rw [if_neg hj, getk_aug_high l _ j hfid (by omega)]

theorem dupAug_get (l : List K) (j : ℕ) :
    getk ((l.drop 1).reverse ++ l) j
      = if j < l.length - 1 then getk l (l.length - 1 - j)
        else getk l (j - (l.length - 1)) := by
  have hfid : (l.drop 1).reverse.length = l.length - 1 := by simp
  by_cases hj : j < l.length - 1
  · rw [if_pos hj, getk_aug_low l _ j hfid hj, getk_dup_part l j hj]
  · rw [if_neg hj, getk_aug_high l _ j hfid (by omega)]

theorem reflAug_sorted (l : List K) (c : K) (hc : c = getk l 0)
    (hs : sortedLT l) (hn : 2 ≤ l.length) :
    sortedLT ((l.drop 1).reverse.map (fun t => 2 * c - t) ++ l) := by
  intro i j hij hj
  have hlen : ((l.drop 1).reverse.map (fun t => 2 * c - t) ++ l).length
      = 2 * l.length - 1 := reflAug_length l _ (by simp) (by omega)
  rw [hlen] at hj
  rw [reflAug_get l c i hc, reflAug_get l c j hc]
  by_cases hi1 : i < l.length - 1 <;> by_cases hj1 : j < l.length - 1
  · rw [if_pos hi1, if_pos hj1]
    have : getk l (l.length - 1 - j) < getk l (l.length - 1 - i) :=
      hs _ _ (by omega) (by omega)
    linarith
  · rw [if_pos hi1, if_neg hj1]
    have h1 : getk l 0 < getk l (l.length - 1 - i) := hs 0 _ (by omega) (by omega)
    have h2 : getk l 0 ≤ getk l (j - (l.length - 1)) := by
      rcases Nat.eq_zero_or_pos (j - (l.length - 1)) with hz | hp
      · rw [hz]
      · exact (hs 0 _ hp (by omega)).le
    rw [hc]
    linarith
  · omega
  · rw [if_neg hi1, if_neg hj1]
    exact hs _ _ (by omega) (by omega)

theorem reflAug_symm (l : List K) (c : K) (hc : c = getk l 0)
    (hn : 2 ≤ l.length) (j : ℕ) (hj : j < 2 * l.length - 1) :
    getk ((l.drop 1).reverse.map (fun t => 2 * c - t) ++ l) j
      + getk ((l.drop 1).reverse.map (fun t => 2 * c - t) ++ l)
          (2 * l.length - 2 - j) = 2 * c := by
  rw [reflAug_get l c j hc, reflAug_get l c (2 * l.length - 2 - j) hc]
  by_cases hj1 : j < l.length - 1
  · rw [if_pos hj1, if_neg (by omega)]
    have hidx : 2 * l.length - 2 - j - (l.length - 1) = l.length - 1 - j := by
      omega
    rw [hidx]
    ring
  · rw [if_neg hj1]
    by_cases hj2 : 2 * l.length - 2 - j < l.length - 1
    · rw [if_pos hj2]
      have hidx : l.length - 1 - (2 * l.length - 2 - j) = j - (l.length - 1) := by
        omega
      rw [hidx]
      ring
    · rw [if_neg hj2]
      have h0a : j - (l.length - 1) = 0 := by omega
      have h0b : 2 * l.length - 2 - j - (l.length - 1) = 0 := by omega
      rw [h0a, h0b, ← hc]
      ring

theorem dupAug_symm (l : List K) (hn : 2 ≤ l.length) (j : ℕ)
    (hj : j < 2 * l.length - 1) :
    getk ((l.drop 1).reverse ++ l) j
      = getk ((l.drop 1).reverse ++ l) (2 * l.length - 2 - j) := by
  rw [dupAug_get l j, dupAug_get l (2 * l.length - 2 - j)]
  by_cases hj1 : j < l.length - 1
  · rw [if_pos hj1, if_neg (by omega)]
    have hidx : 2 * l.length - 2 - j - (l.length - 1) = l.length - 1 - j := by
      omega
    rw [hidx]
  · rw [if_neg hj1]
    by_cases hj2 : 2 * l.length - 2 - j < l.length - 1
    · rw [if_pos hj2]
      have hidx : l.length - 1 - (2 * l.length - 2 - j) = j - (l.length - 1) := by
        omega
      rw [hidx]
    · rw [if_neg hj2]
      have h0a : j - (l.length - 1) = 0 := by omega
      have h0b : 2 * l.length - 2 - j - (l.length - 1) = 0 := by omega
      rw [h0a, h0b]

theorem dupAug_allPos (l : List K) (hp : allPos l) (hn : 1 ≤ l.length) :
    allPos ((l.drop 1).reverse ++ l) := by
  intro j hj
  have hlen : ((l.drop 1).reverse ++ l).length = 2 * l.length - 1 :=
    reflAug_length l _ (by simp) hn
  rw [hlen] at hj
  rw [dupAug_get l j]
  by_cases hj1 : j < l.length - 1
  · rw [if_pos hj1]
    exact hp _ (by omega)
  · rw [if_neg hj1]
    exact hp _ (by omega)

theorem le_searchsorted (xs : List K) (v : K) (t : ℕ) (ht : t ≤ xs.length)
    (h : ∀ j, j < t → getk xs j < v) : t ≤ searchsorted xs v := by
  by_contra hc
  push_neg at hc
  have hsl : searchsorted xs v < xs.length := lt_of_lt_of_le hc ht
  exact absurd (le_getk_searchsorted xs v hsl) (not_le.2 (h _ hc))

theorem etaOf_reflect (m d0 d1 theta : ℝ)
    (hD : m + (d1 + d0 - 2 * m) * theta * (1 - theta) ≠ 0) :
    etaOf m d1 d0 (1 - theta) = 1 - etaOf m d0 d1 theta := by
  have hDeq : m + (d0 + d1 - 2 * m) * (1 - theta) * (1 - (1 - theta))
      = m + (d1 + d0 - 2 * m) * theta * (1 - theta) := by
    ring
  rw [etaOf, etaOf, hDeq, eq_sub_iff_add_eq, div_add_div_same,
    div_eq_one_iff_eq hD]
  ring

theorem pade22_mirror (x0 x1 y0 y1 d0 d1 x X Y : ℝ)
    (hx : x0 < x1) (hy : y0 < y1) (hd0 : 0 < d0) (hd1 : 0 < d1)
    (hxl : x0 ≤ x) (hxr : x ≤ x1) :
    pade22_g0 (2 * X - x1) (2 * X - x0) (2 * Y - y1) (2 * Y - y0) d1 d0
        (2 * X - x)
      = 2 * Y - pade22_g0 x0 x1 y0 y1 d0 d1 x := by
  have hm : 0 < (y1 - y0) / (x1 - x0) := div_pos (by linarith) (by linarith)
  have ht0 : 0 ≤ (x - x0) / (x1 - x0) := div_nonneg (by linarith) (by linarith)
  have ht1 : (x - x0) / (x1 - x0) ≤ 1 := by
    rw [div_le_one (by linarith)]
    linarith
  have hD := pade22_den_pos _ _ _ _ hm hd0 hd1 ht0 ht1
  rw [segment22_eta (2 * X - x1) (2 * X - x0) (2 * Y - y1) (2 * Y - y0) d1 d0
    (2 * X - x), segment22_eta x0 x1 y0 y1 d0 d1 x]
  have hm2 : (2 * Y - y0 - (2 * Y - y1)) / (2 * X - x0 - (2 * X - x1))
      = (y1 - y0) / (x1 - x0) := by
    rw [show 2 * Y - y0 - (2 * Y - y1) = y1 - y0 by ring,
      show 2 * X - x0 - (2 * X - x1) = x1 - x0 by ring]
  have hth2 : (2 * X - x - (2 * X - x1)) / (2 * X - x0 - (2 * X - x1))
      = 1 - (x - x0) / (x1 - x0) := by
    rw [show 2 * X - x - (2 * X - x1) = x1 - x by ring,
      show 2 * X - x0 - (2 * X - x1) = x1 - x0 by ring]
    rw [eq_sub_iff_add_eq, div_add_div_same, div_eq_one_iff_eq (by linarith)]
    ring
  rw [hm2, hth2, etaOf_reflect _ _ _ _ (ne_of_gt hD)]
  ring

theorem forward22_reflect (a : Knots ℝ) (X Y : ℝ) (N : ℕ) (hN : 1 ≤ N)
    (hlen : a.xs.length = 2 * N + 1)
    (hsx : sortedLT a.xs) (hsy : sortedLT a.ys) (hd : allPos a.ds)
    (hyl : a.ys.length = a.xs.length) (hdl : a.ds.length = a.xs.length)
    (hsymx : ∀ j, j < 2 * N + 1 → getk a.xs j + getk a.xs (2 * N - j) = 2 * X)
    (hsymy : ∀ j, j < 2 * N + 1 → getk a.ys j + getk a.ys (2 * N - j) = 2 * Y)
    (hsymd : ∀ j, j < 2 * N + 1 → getk a.ds j = getk a.ds (2 * N - j))
    (v : ℝ) (hv1 : X ≤ v) (hv2 : v ≤ getk a.xs (2 * N)) :
    forward22 a (2 * X - v) = 2 * Y - forward22 a v := by
  have hXN : getk a.xs N = X := by
    have h := hsymx N (by omega)
    have h2 : 2 * N - N = N := by omega
    rw [h2] at h
    linarith
  set s := searchsorted a.xs v with hs
  have hsle : s ≤ 2 * N := by
    by_contra hc
    push_neg at hc
    have := getk_lt_of_lt_searchsorted a.xs v (2 * N) (by omega)
    linarith
  have hsge : N ≤ s := by
    apply le_searchsorted a.xs v N (by omega)
    intro j hj
    have h1 : getk a.xs j < getk a.xs N := hsx j N hj (by omega)
    rw [hXN] at h1
    linarith
  have hvle : v ≤ getk a.xs s := le_getk_searchsorted a.xs v (by omega)
  have hseg : segmentIndex a.xs (a.xs.length - 1) v = s - 1 := by
    rw [segmentIndex, hlen, ← hs]
    omega
  have hs1 : s - 1 + 1 = s := by omega
  have hx01 : getk a.xs (s - 1) < getk a.xs s := hsx (s - 1) s (by omega) (by omega)
  have hy01 : getk a.ys (s - 1) < getk a.ys s := hsy (s - 1) s (by omega) (by omega)
  rcases eq_or_lt_of_le hvle with hveq | hvlt
  · -- v is exactly the knot a.xs[s]
    have hfv : forward22 a v = getk a.ys s := by
      rw [forward22_def, hseg, hs1, hveq]
      exact pade22_g0_right _ _ _ _ _ _ (sub_ne_zero.2 hx01.ne')
        (div_ne_zero (sub_ne_zero.2 hy01.ne') (sub_ne_zero.2 hx01.ne'))
    have hv' : 2 * X - v = getk a.xs (2 * N - s) := by
      have := hsymx s (by omega)
      rw [hveq]
      linarith
    have hs' : searchsorted a.xs (2 * X - v) = 2 * N - s := by
      rw [hv']
      exact searchsorted_getk a.xs (2 * N - s) hsx (by omega)
    rcases Nat.eq_or_lt_of_le hsle with hstop | hslt
    · -- s = 2N: the mirrored point is the very first augmented knot
      have hseg' : segmentIndex a.xs (a.xs.length - 1) (2 * X - v) = 0 := by
        rw [segmentIndex, hlen, hs', hstop]
        omega
      have hv0 : 2 * X - v = getk a.xs 0 := by
        rw [hv', hstop]
        have h00 : 2 * N - 2 * N = 0 := by omega
        rw [h00]
      have hfv' : forward22 a (2 * X - v) = getk a.ys 0 := by
        rw [forward22_def, hseg', hv0]
        exact pade22_g0_left _ _ _ _ _ _
      rw [hfv, hfv', hstop]
      have h := hsymy (2 * N) (by omega)
      have h00 : 2 * N - 2 * N = 0 := by omega
      rw [h00] at h
      linarith
    · -- s < 2N: the mirrored point is the right end of segment 2N-s-1
      have hseg' : segmentIndex a.xs (a.xs.length - 1) (2 * X - v)
          = 2 * N - s - 1 := by
        rw [segmentIndex, hlen, hs']
        omega
      have hs'1 : 2 * N - s - 1 + 1 = 2 * N - s := by omega
      have hx01' : getk a.xs (2 * N - s - 1) < getk a.xs (2 * N - s) :=
        hsx _ _ (by omega) (by omega)
      have hy01' : getk a.ys (2 * N - s - 1) < getk a.ys (2 * N - s) :=
        hsy _ _ (by omega) (by omega)
      have hfv' : forward22 a (2 * X - v) = getk a.ys (2 * N - s) := by
        rw [forward22_def, hseg', hs'1, hv']
        exact pade22_g0_right _ _ _ _ _ _ (sub_ne_zero.2 hx01'.ne')
          (div_ne_zero (sub_ne_zero.2 hy01'.ne') (sub_ne_zero.2 hx01'.ne'))
      rw [hfv, hfv']
      have h := hsymy s (by omega)
      linarith
  · -- v is strictly inside segment s-1
    have hlow : getk a.xs (s - 1) < v :=
      getk_lt_of_lt_searchsorted a.xs v (s - 1) (by omega)
    have hsym_s : getk a.xs (2 * N - s) = 2 * X - getk a.xs s := by
      have := hsymx s (by omega)
      linarith
    have hsym_s1 : getk a.xs (2 * N - s + 1) = 2 * X - getk a.xs (s - 1) := by
      have h := hsymx (s - 1) (by omega)
      have heq : 2 * N - (s - 1) = 2 * N - s + 1 := by omega
      rw [heq] at h
      linarith
    have hs' : searchsorted a.xs (2 * X - v) = 2 * N - s + 1 := by
      apply searchsorted_eq_of_between a.xs (2 * X - v) (2 * N - s) hsx
        (by omega)
      · rw [hsym_s]
        linarith
      · rw [hsym_s1]
        linarith
    have hseg' : segmentIndex a.xs (a.xs.length - 1) (2 * X - v)
        = 2 * N - s := by
      rw [segmentIndex, hlen, hs']
      omega
    have hfv : forward22 a v
        = pade22_g0 (getk a.xs (s - 1)) (getk a.xs s) (getk a.ys (s - 1))
            (getk a.ys s) (getk a.ds (s - 1)) (getk a.ds s) v := by
      rw [forward22_def, hseg, hs1]
    have hfv' : forward22 a (2 * X - v)
        = pade22_g0 (getk a.xs (2 * N - s)) (getk a.xs (2 * N - s + 1))
            (getk a.ys (2 * N - s)) (getk a.ys (2 * N - s + 1))
            (getk a.ds (2 * N - s)) (getk a.ds (2 * N - s + 1)) (2 * X - v) := by
      rw [forward22_def, hseg']
    have hsymy_s : getk a.ys (2 * N - s) = 2 * Y - getk a.ys s := by
      have := hsymy s (by omega)
      linarith
    have hsymy_s1 : getk a.ys (2 * N - s + 1) = 2 * Y - getk a.ys (s - 1) := by
      have h := hsymy (s - 1) (by omega)
      have heq : 2 * N - (s - 1) = 2 * N - s + 1 := by omega
      rw [heq] at h
      linarith
    have hsymd_s : getk a.ds (2 * N - s) = getk a.ds s := by
      have h := hsymd s (by omega)
      rw [h]
    have hsymd_s1 : getk a.ds (2 * N - s + 1) = getk a.ds (s - 1) := by
      have h := hsymd (s - 1) (by omega)
      have heq : 2 * N - (s - 1) = 2 * N - s + 1 := by omega
      rw [heq] at h
      rw [h]
    rw [hfv, hfv', hsym_s, hsym_s1, hsymy_s, hsymy_s1, hsymd_s, hsymd_s1]
    exact pade22_mirror (getk a.xs (s - 1)) (getk a.xs s) (getk a.ys (s - 1))
      (getk a.ys s) (getk a.ds (s - 1)) (getk a.ds s) v X Y hx01 hy01
      (hd (s - 1) (by omega)) (hd s (by omega)) hlow.le hvlt.le

/-- **C8.** With `extrap_left` in `{'anti', 'anti-periodic'}`, augmentation
prepends the entire reversed interior sequence reflected about the first
knot — fictitious `x = 2*x0 - reversed(x[1:])`, `y = 2*y0 - reversed(y[1:])`,
`d = reversed(d[1:])` with unchanged sign — and mirrored for the right side
(`x = 2*x_last - reversed(x[:-1])`, `y = 2*y_last - reversed(y[:-1])`,
`d = reversed(d[:-1])` appended); consequently, for `eps` within one period,
the Pade22 forward evaluation satisfies
`forward(x0 - eps) = 2*y0 - forward(x0 + eps)`. -/
theorem c8_anti_reflection (k : Knots ℝ)
    (hsx : sortedLT k.xs) (hsy : sortedLT k.ys) (hd : allPos k.ds)
    (hyl : k.ys.length = k.xs.length) (hdl : k.ds.length = k.xs.length)
    (hn : 2 ≤ k.xs.length) :
    performBC [k] (some "anti") none = .ok
      [⟨(k.xs.drop 1).reverse.map (fun t => 2 * getk k.xs 0 - t) ++ k.xs,
        (k.ys.drop 1).reverse.map (fun t => 2 * getk k.ys 0 - t) ++ k.ys,
        (k.ds.drop 1).reverse ++ k.ds⟩] ∧
    performBC [k] (some "anti-periodic") none = .ok
      [⟨(k.xs.drop 1).reverse.map (fun t => 2 * getk k.xs 0 - t) ++ k.xs,
        (k.ys.drop 1).reverse.map (fun t => 2 * getk k.ys 0 - t) ++ k.ys,
        (k.ds.drop 1).reverse ++ k.ds⟩] ∧
    performBC [k] none (some "anti") = .ok
      [⟨k.xs ++ (k.xs.take (k.xs.length - 1)).reverse.map
          (fun t => 2 * getk k.xs (k.xs.length - 1) - t),
        k.ys ++ (k.ys.take (k.xs.length - 1)).reverse.map
          (fun t => 2 * getk k.ys (k.xs.length - 1) - t),
        k.ds ++ (k.ds.take (k.xs.length - 1)).reverse⟩] ∧
    performBC [k] none (some "anti-periodic") = .ok
      [⟨k.xs ++ (k.xs.take (k.xs.length - 1)).reverse.map
          (fun t => 2 * getk k.xs (k.xs.length - 1) - t),
        k.ys ++ (k.ys.take (k.xs.length - 1)).reverse.map
          (fun t => 2 * getk k.ys (k.xs.length - 1) - t),
        k.ds ++ (k.ds.take (k.xs.length - 1)).reverse⟩] ∧
    ∀ eps : ℝ, 0 ≤ eps →
      eps ≤ getk k.xs (k.xs.length - 1) - getk k.xs 0 →
      forward22 (takecareRestRow k (some "anti") none) (getk k.xs 0 - eps)
        = 2 * getk k.ys 0
          - forward22 (takecareRestRow k (some "anti") none)
              (getk k.xs 0 + eps) := by
  have haug : takecareRestRow k (some "anti") none
      = ⟨(k.xs.drop 1).reverse.map (fun t => 2 * getk k.xs 0 - t) ++ k.xs,
         (k.ys.drop 1).reverse.map (fun t => 2 * getk k.ys 0 - t) ++ k.ys,
         (k.ds.drop 1).reverse ++ k.ds⟩ := by
    cases k with
    | mk xs ys ds => simp [takecareRestRow, getk]
  refine ⟨?_, ?_, ?_, ?_, ?_⟩
  · cases k with
    | mk xs ys ds => simp [performBC, takecareRestBatch, takecareRestRow, getk]
  · cases k with
    | mk xs ys ds => simp [performBC, takecareRestBatch, takecareRestRow, getk]
  · cases k with
    | mk xs ys ds => simp [performBC, takecareRestBatch, takecareRestRow, getk]
  · cases k with
    | mk xs ys ds => simp [performBC, takecareRestBatch, takecareRestRow, getk]
  · intro eps he0 he1
    have hNlen : (takecareRestRow k (some "anti") none).xs.length
        = 2 * (k.xs.length - 1) + 1 := by
      rw [haug]
      simp only [List.length_append, List.length_map, List.length_reverse,
        List.length_drop]
      omega
    have hsx2 : sortedLT (takecareRestRow k (some "anti") none).xs := by
      rw [haug]
      exact reflAug_sorted k.xs _ rfl hsx hn
    have hsy2 : sortedLT (takecareRestRow k (some "anti") none).ys := by
      rw [haug]
      exact reflAug_sorted k.ys _ rfl hsy (by omega)
    have hd2 : allPos (takecareRestRow k (some "anti") none).ds := by
      rw [haug]
      exact dupAug_allPos k.ds hd (by omega)
    have hyl2 : (takecareRestRow k (some "anti") none).ys.length
        = (takecareRestRow k (some "anti") none).xs.length := by
      rw [haug]
      simp only [List.length_append, List.length_map, List.length_reverse,
        List.length_drop]
      omega
    have hdl2 : (takecareRestRow k (some "anti") none).ds.length
        = (takecareRestRow k (some "anti") none).xs.length := by
      rw [haug]
      simp only [List.length_append, List.length_map, List.length_reverse,
        List.length_drop]
      omega
    have hsymx2 : ∀ j, j < 2 * (k.xs.length - 1) + 1 →
        getk (takecareRestRow k (some "anti") none).xs j
          + getk (takecareRestRow k (some "anti") none).xs
              (2 * (k.xs.length - 1) - j) = 2 * getk k.xs 0 := by
      intro j hj
      rw [haug]
      have h2 : 2 * (k.xs.length - 1) - j = 2 * k.xs.length - 2 - j := by omega
      rw [h2]
      exact reflAug_symm k.xs _ rfl hn j (by omega)
    have hsymy2 : ∀ j, j < 2 * (k.xs.length - 1) + 1 →
        getk (takecareRestRow k (some "anti") none).ys j
          + getk (takecareRestRow k (some "anti") none).ys
              (2 * (k.xs.length - 1) - j) = 2 * getk k.ys 0 := by
      intro j hj
      rw [haug]
      have h2 : 2 * (k.xs.length - 1) - j = 2 * k.ys.length - 2 - j := by omega
      rw [h2]
      exact reflAug_symm k.ys _ rfl (by omega) j (by omega)
    have hsymd2 : ∀ j, j < 2 * (k.xs.length - 1) + 1 →
        getk (takecareRestRow k (some "anti") none).ds j
          = getk (takecareRestRow k (some "anti") none).ds
              (2 * (k.xs.length - 1) - j) := by
      intro j hj
      rw [haug]
      have h2 : 2 * (k.xs.length - 1) - j = 2 * k.ds.length - 2 - j := by omega
      rw [h2]
      exact dupAug_symm k.ds (by omega) j (by omega)
    have hv2 : getk k.xs 0 + eps
        ≤ getk (takecareRestRow k (some "anti") none).xs
            (2 * (k.xs.length - 1)) := by
      rw [haug]
      have hget := reflAug_get k.xs (getk k.xs 0) (2 * (k.xs.length - 1)) rfl
      rw [show ((⟨(k.xs.drop 1).reverse.map (fun t => 2 * getk k.xs 0 - t)
          ++ k.xs, (k.ys.drop 1).reverse.map (fun t => 2 * getk k.ys 0 - t)
          ++ k.ys, (k.ds.drop 1).reverse ++ k.ds⟩ : Knots ℝ)).xs
          = (k.xs.drop 1).reverse.map (fun t => 2 * getk k.xs 0 - t) ++ k.xs
          from rfl]
      rw [hget, if_neg (by omega)]
      have hidx : 2 * (k.xs.length - 1) - (k.xs.length - 1)
          = k.xs.length - 1 := by omega
      rw [hidx]
      linarith
    have hmain := forward22_reflect (takecareRestRow k (some "anti") none)
      (getk k.xs 0) (getk k.ys 0) (k.xs.length - 1) (by omega) hNlen
      hsx2 hsy2 hd2 hyl2 hdl2 hsymx2 hsymy2 hsymd2
      (getk k.xs 0 + eps) (by linarith) hv2
    have hx2 : getk k.xs 0 - eps
        = 2 * getk k.xs 0 - (getk k.xs 0 + eps) := by ring
    rw [hx2]
    exact hmain

/-- **C8, witness.** -/
theorem c8_anti_reflection_witness :
    (sortedLT ([0, 1] : List ℝ) ∧ allPos ([1, 1] : List ℝ) ∧
      (0:ℝ) ≤ 1 / 2 ∧
      (1 / 2 : ℝ) ≤ getk ([0, 1] : List ℝ) 1 - getk ([0, 1] : List ℝ) 0) ∧
    (performBC [(⟨[0, 1], [0, 1], [1, 1]⟩ : Knots ℝ)] (some "anti") none = .ok
      [⟨(([0, 1] : List ℝ).drop 1).reverse.map
          (fun t => 2 * getk ([0, 1] : List ℝ) 0 - t) ++ [0, 1],
        (([0, 1] : List ℝ).drop 1).reverse.map
          (fun t => 2 * getk ([0, 1] : List ℝ) 0 - t) ++ [0, 1],
        (([1, 1] : List ℝ).drop 1).reverse ++ [1, 1]⟩] ∧
      performBC [(⟨[0, 1], [0, 1], [1, 1]⟩ : Knots ℝ)] none (some "anti") = .ok
      [⟨[0, 1] ++ (([0, 1] : List ℝ).take 1).reverse.map
          (fun t => 2 * getk ([0, 1] : List ℝ) 1 - t),
        [0, 1] ++ (([0, 1] : List ℝ).take 1).reverse.map
          (fun t => 2 * getk ([0, 1] : List ℝ) 1 - t),
        [1, 1] ++ (([1, 1] : List ℝ).take 1).reverse⟩] ∧
      forward22 (takecareRestRow (⟨[0, 1], [0, 1], [1, 1]⟩ : Knots ℝ)
          (some "anti") none) (getk ([0, 1] : List ℝ) 0 - 1 / 2)
        = 2 * getk ([0, 1] : List ℝ) 0
          - forward22 (takecareRestRow (⟨[0, 1], [0, 1], [1, 1]⟩ : Knots ℝ)
              (some "anti") none) (getk ([0, 1] : List ℝ) 0 + 1 / 2)) := by
  have hs : sortedLT ([0, 1] : List ℝ) := by
    intro i j hij hj
    simp only [List.length_cons, List.length_nil] at hj
    interval_cases j <;> interval_cases i <;> norm_num [getk]
  have hp : allPos ([1, 1] : List ℝ) := by
    intro i hi
    simp only [List.length_cons, List.length_nil] at hi
    interval_cases i <;> norm_num [getk]
  have h := c8_anti_reflection (⟨[0, 1], [0, 1], [1, 1]⟩ : Knots ℝ) hs hs hp
    (by simp) (by simp) (by simp)
  refine ⟨⟨hs, hp, by norm_num, by norm_num [getk]⟩, h.1, h.2.2.1, ?_⟩
  exact h.2.2.2.2 (1 / 2) (by norm_num) (by norm_num [getk])

end Spline
